import Mathlib

/-!
Verification of the particle shape-generation engine of ZenParticlesBy3D.

The definitions below are shallow embeddings of the TypeScript sources:
  * `src/utils/geometry.ts`   (shape generator, pixel scan, Fisher-Yates shuffle)
  * `src/components/Particles.tsx` (attribute assembler, vertex shader, render loop)
  * `src/components/WebcamHandler.tsx` (gesture smoothing)
JavaScript numbers are modelled by `ℚ` where only field arithmetic occurs and by
`ℝ` where transcendental functions (`Math.sin`, `Math.acos`, ...) are involved.
`Math.random()` draws are modelled as explicit streams `ℕ → ℚ` / `ℕ → ℝ` of
values in `[0,1)`, consumed positionally in source order.  Typed-array writes
out of bounds are silently dropped in JavaScript; `List.set` has exactly this
out-of-bounds behaviour, so buffers are modelled as flat `List`s.
-/

namespace ZenParticles

/-- `MAX_PARTICLE_COUNT` from `src/utils/geometry.ts` line 6. -/
def MAX_PARTICLE_COUNT : ℕ := 40000

/-- `PROCEDURAL_COUNT` from `src/utils/geometry.ts` line 8. -/
def PROCEDURAL_COUNT : ℕ := 15000

/-- An `ImageData` pixel buffer: `width`, `height` and the flat RGBA byte
array `data` (row-major, 4 bytes per pixel). -/
structure ImageData where
  width : ℕ
  height : ℕ
  data : List ℕ
deriving DecidableEq

/-- One entry of the `validPixels` array built by the image/text branch of
`generateShapePositions` (geometry.ts lines 93-100): world x/y position and
normalized r/g/b color. -/
structure Pixel where
  x : ℚ
  y : ℚ
  r : ℚ
  g : ℚ
  b : ℚ
deriving DecidableEq

/-- The draw rectangle `(drawW, drawH)` computed from the buffer's aspect
ratio (geometry.ts lines 77-81): start from 14×14 and shrink the shorter
axis proportionally. -/
def drawDims (img : ImageData) : ℚ × ℚ :=
  let aspect : ℚ := (img.width : ℚ) / (img.height : ℚ)
  if 1 < aspect then (14, 14 / aspect) else (14 * aspect, 14)

/-- Alpha byte of the pixel at grid position `(px, py)`:
`data[(py*width+px)*4 + 3]` (geometry.ts lines 88-89).  A read past the end of
the array yields `undefined` in JS, which fails the `> 20` test; the default
value `0` fails it likewise. -/
def pixelAlpha (img : ImageData) (px py : ℕ) : ℕ :=
  img.data.getD ((py * img.width + px) * 4 + 3) 0

/-- The entry pushed onto `validPixels` for the pixel at `(px, py)`
(geometry.ts lines 93-100): world x/y from the grid position (y flipped) and
the RGB bytes normalized by 255. -/
def keptPixel (img : ImageData) (px py : ℕ) : Pixel :=
  let idx := (py * img.width + px) * 4
  { x := ((px : ℚ) / (img.width : ℚ) - 1/2) * (drawDims img).1,
    y := -(((py : ℚ) / (img.height : ℚ)) - 1/2) * (drawDims img).2,
    r := (img.data.getD idx 0 : ℚ) / 255,
    g := (img.data.getD (idx + 1) 0 : ℚ) / 255,
    b := (img.data.getD (idx + 2) 0 : ℚ) / 255 }

/-- The `validPixels` array built by the double scan loop of
`generateShapePositions` (geometry.ts lines 86-103): all pixels whose alpha
exceeds 20, each mapped to its world position and normalized color. -/
def validPixels (img : ImageData) : List Pixel :=
  (List.range img.height).flatMap fun py =>
    (List.range img.width).filterMap fun px =>
      if 20 < pixelAlpha img px py then some (keptPixel img px py) else none

/-- The `activeCount` chosen by the image/text branch (geometry.ts lines
105-110): the kept-pixel count, capped at `MAX_PARTICLE_COUNT`. -/
def imageActiveCount (img : ImageData) : ℕ :=
  if MAX_PARTICLE_COUNT < (validPixels img).length then MAX_PARTICLE_COUNT
  else (validPixels img).length

/-- The in-place swap `[array[i], array[j]] = [array[j], array[i]]`
(geometry.ts line 54) on the list model.  Both indices are in range whenever
the shuffle calls this. -/
def listSwap {α : Type} (l : List α) (i j : ℕ) : List α :=
  if h : i < l.length ∧ j < l.length then
    (l.set i (l.get ⟨j, h.2⟩)).set j (l.get ⟨i, h.1⟩)
  else l

/-- The loop body chain of `shuffleArray` (geometry.ts lines 51-56): starting
from loop index `c` and counting down to 1, swap position `i` with position
`draws i`. -/
def shuffleAux {α : Type} (draws : ℕ → ℕ) : ℕ → List α → List α
  | 0, l => l
  | c + 1, l => shuffleAux draws c (listSwap l (c + 1) (draws (c + 1)))

/-- `shuffleArray` (geometry.ts lines 51-56): the full Fisher-Yates shuffle,
with the random draw at loop index `i` (namely `Math.floor(Math.random()*(i+1))`)
supplied by `draws i`. -/
def shuffleArray {α : Type} (draws : ℕ → ℕ) (l : List α) : List α :=
  shuffleAux draws (l.length - 1) l

/-- The draw `Math.floor(Math.random() * (i + 1))` used at loop index `i` of
`shuffleArray` (geometry.ts line 53). -/
def jsDraw (r : ℚ) (i : ℕ) : ℤ := ⌊r * ((i : ℚ) + 1)⌋

/-- The space of complete draw sequences of a run of `shuffleArray` on a list
of length `n`: at loop index `i` the draw is one of the `i + 1` values
`0, …, i`.  (Loop index `0` is never used by the loop.) -/
abbrev DrawSeq (n : ℕ) := (i : Fin n) → Fin (i.val + 1)

/-- Interpret a `DrawSeq` as the draw function fed to `shuffleArray`. -/
def toDraws {n : ℕ} (d : DrawSeq n) : ℕ → ℕ := fun i =>
  if h : i < n then (d ⟨i, h⟩).val else 0

/-- For `Math.random()` values in `[0, 1)` the draw at loop index `i` lands in
`{0, …, i}` — the value range assumed by `DrawSeq`. -/
theorem jsDraw_range (r : ℚ) (i : ℕ) (h0 : 0 ≤ r) (h1 : r < 1) :
    0 ≤ jsDraw r i ∧ jsDraw r i ≤ (i : ℤ) := by
  unfold jsDraw
  have hi1 : (0 : ℚ) < (i : ℚ) + 1 := by positivity
  constructor
  · exact Int.floor_nonneg.mpr (mul_nonneg h0 (by positivity))
  · have hlt : r * ((i : ℚ) + 1) < (i : ℚ) + 1 := by nlinarith
    have := Int.floor_lt.mpr (by push_cast; linarith : r * ((i : ℚ) + 1) < (((i : ℤ) + 1 : ℤ) : ℚ))
    omega

/-- Every value in `{0, …, i}` is produced by some `Math.random()` value in
`[0, 1)`: the draw space `DrawSeq` is exactly the image of the uniform
source. -/
theorem jsDraw_surjective (i j : ℕ) (hj : j ≤ i) :
    ∃ r : ℚ, 0 ≤ r ∧ r < 1 ∧ jsDraw r i = (j : ℤ) := by
  have hi1 : (0 : ℚ) < (i : ℚ) + 1 := by positivity
  refine ⟨(j : ℚ) / ((i : ℚ) + 1), by positivity, ?_, ?_⟩
  · rw [div_lt_one hi1]
    have : (j : ℚ) ≤ (i : ℚ) := by exact_mod_cast hj
    linarith
  · unfold jsDraw
    rw [div_mul_cancel₀ _ (ne_of_gt hi1)]
    exact Int.floor_natCast j

/-! ### Elementary properties of the swap and the shuffle loop -/

theorem listSwap_length {α : Type} (l : List α) (i j : ℕ) :
    (listSwap l i j).length = l.length := by
  unfold listSwap
  split
  · simp
  · rfl

/-- Pulling the `k`-th element of a list to the front while writing `x` into
slot `k` permutes `x :: t`. -/
theorem get_cons_set_perm {α : Type} :
    ∀ (t : List α) (k : ℕ) (hk : k < t.length) (x : α),
      ((t.get ⟨k, hk⟩) :: t.set k x).Perm (x :: t) := by
  intro t
  induction t with
  | nil => intro k hk x; simp at hk
  | cons a s ih =>
    intro k hk x
    cases k with
    | zero =>
      simp only [List.get_eq_getElem, List.getElem_cons_zero, List.set_cons_zero]
      exact List.Perm.swap x a s
    | succ k =>
      have hks : k < s.length := by simpa using hk
      simp only [List.get_eq_getElem, List.getElem_cons_succ, List.set_cons_succ]
      exact (List.Perm.swap a (s.get ⟨k, hks⟩) (s.set k x)).trans
        ((List.Perm.cons a (ih k hks x)).trans (List.Perm.swap x a s))

theorem set_set_get_perm {α : Type} :
    ∀ (l : List α) (i j : ℕ) (hi : i < l.length) (hj : j < l.length),
      ((l.set i (l.get ⟨j, hj⟩)).set j (l.get ⟨i, hi⟩)).Perm l := by
  intro l
  induction l with
  | nil => intro i j hi hj; simp at hi
  | cons a s ih =>
    intro i j hi hj
    cases i with
    | zero =>
      cases j with
      | zero =>
        simp only [List.get_eq_getElem, List.getElem_cons_zero, List.set_cons_zero]
        exact List.Perm.refl _
      | succ m =>
        have hm : m < s.length := by simpa using hj
        simp only [List.get_eq_getElem, List.getElem_cons_zero, List.getElem_cons_succ,
          List.set_cons_zero, List.set_cons_succ]
        exact get_cons_set_perm s m hm a
    | succ k =>
      have hks : k < s.length := by simpa using hi
      cases j with
      | zero =>
        simp only [List.get_eq_getElem, List.getElem_cons_zero, List.getElem_cons_succ,
          List.set_cons_succ, List.set_cons_zero]
        exact get_cons_set_perm s k hks a
      | succ m =>
        have hm : m < s.length := by simpa using hj
        simp only [List.get_eq_getElem, List.getElem_cons_succ, List.set_cons_succ]
        exact List.Perm.cons a (ih k m hks hm)

theorem listSwap_perm {α : Type} (l : List α) (i j : ℕ) : (listSwap l i j).Perm l := by
  unfold listSwap
  split
  · next h => exact set_set_get_perm l i j h.1 h.2
  · exact List.Perm.refl _

theorem listSwap_getElem?_left {α : Type} (l : List α) (i j : ℕ)
    (hi : i < l.length) (hj : j < l.length) : (listSwap l i j)[i]? = l[j]? := by
  unfold listSwap
  rw [dif_pos ⟨hi, hj⟩]
  by_cases hij : j = i
  · subst hij
    rw [List.getElem?_set_self (by simpa using hj)]
    rw [List.getElem?_eq_getElem hj]
    simp [List.get_eq_getElem]
  · rw [List.getElem?_set_ne hij, List.getElem?_set_self hi, List.getElem?_eq_getElem hj]
    simp [List.get_eq_getElem]

theorem listSwap_getElem?_right {α : Type} (l : List α) (i j : ℕ)
    (hi : i < l.length) (hj : j < l.length) : (listSwap l i j)[j]? = l[i]? := by
  unfold listSwap
  rw [dif_pos ⟨hi, hj⟩]
  rw [List.getElem?_set_self (by simpa using hj), List.getElem?_eq_getElem hi]
  simp [List.get_eq_getElem]

theorem listSwap_getElem?_ne {α : Type} (l : List α) (i j k : ℕ)
    (hki : k ≠ i) (hkj : k ≠ j) : (listSwap l i j)[k]? = l[k]? := by
  unfold listSwap
  split
  · rw [List.getElem?_set_ne (Ne.symm hkj), List.getElem?_set_ne (Ne.symm hki)]
  · rfl

theorem shuffleAux_length {α : Type} (d : ℕ → ℕ) :
    ∀ (c : ℕ) (l : List α), (shuffleAux d c l).length = l.length := by
  intro c
  induction c with
  | zero => intro l; rfl
  | succ c ih => intro l; rw [shuffleAux, ih, listSwap_length]

theorem shuffleAux_perm {α : Type} (d : ℕ → ℕ) :
    ∀ (c : ℕ) (l : List α), (shuffleAux d c l).Perm l := by
  intro c
  induction c with
  | zero => intro l; exact List.Perm.refl l
  | succ c ih =>
    intro l
    exact (ih (listSwap l (c + 1) (d (c + 1)))).trans (listSwap_perm l (c + 1) (d (c + 1)))

/-- The shuffle loop never touches a position above its loop counter. -/
theorem shuffleAux_getElem?_high {α : Type} (d : ℕ → ℕ) (hd : ∀ i, d i ≤ i) :
    ∀ (c : ℕ) (l : List α) (k : ℕ), c < k → (shuffleAux d c l)[k]? = l[k]? := by
  intro c
  induction c with
  | zero => intro l k _; rfl
  | succ c ih =>
    intro l k hk
    rw [shuffleAux, ih _ k (by omega),
      listSwap_getElem?_ne l (c + 1) (d (c + 1)) k (by omega)
        (by have := hd (c + 1); omega)]

/-- After the swap at loop index `c+1`, position `c+1` holds the element that
was at the drawn index. -/
theorem shuffleAux_getElem?_top {α : Type} (d : ℕ → ℕ) (hd : ∀ i, d i ≤ i)
    (c : ℕ) (l : List α) (hc : c + 1 < l.length) :
    (shuffleAux d (c + 1) l)[c + 1]? = l[d (c + 1)]? := by
  rw [shuffleAux, shuffleAux_getElem?_high d hd c _ (c + 1) (by omega),
    listSwap_getElem?_left l (c + 1) (d (c + 1)) hc (by have := hd (c + 1); omega)]

theorem shuffleAux_congr {α : Type} (d1 d2 : ℕ → ℕ) :
    ∀ (c : ℕ) (l : List α), (∀ i, 1 ≤ i → i ≤ c → d1 i = d2 i) →
      shuffleAux d1 c l = shuffleAux d2 c l := by
  intro c
  induction c with
  | zero => intro l _; rfl
  | succ c ih =>
    intro l h
    rw [shuffleAux, shuffleAux, h (c + 1) (by omega) (by omega)]
    exact ih _ (fun i h1 h2 => h i h1 (by omega))

/-- On a duplicate-free list the shuffle determines its draw sequence: two draw
sequences producing the same output agree at every loop index actually used. -/
theorem shuffleAux_inj {α : Type} (d1 d2 : ℕ → ℕ)
    (hd1 : ∀ i, d1 i ≤ i) (hd2 : ∀ i, d2 i ≤ i) :
    ∀ (c : ℕ) (l : List α), l.Nodup → c < l.length →
      shuffleAux d1 c l = shuffleAux d2 c l →
      ∀ i, 1 ≤ i → i ≤ c → d1 i = d2 i := by
  intro c
  induction c with
  | zero => intro l _ _ _ i h1 h0; omega
  | succ c ih =>
    intro l hl hc heq i h1 hic
    have hb1 : d1 (c + 1) < l.length := lt_of_le_of_lt (hd1 (c + 1)) (by omega)
    have hb2 : d2 (c + 1) < l.length := lt_of_le_of_lt (hd2 (c + 1)) (by omega)
    have htop : l[d1 (c + 1)]? = l[d2 (c + 1)]? := by
      rw [← shuffleAux_getElem?_top d1 hd1 c l hc, ← shuffleAux_getElem?_top d2 hd2 c l hc, heq]
    rw [List.getElem?_eq_getElem hb1, List.getElem?_eq_getElem hb2] at htop
    have hde : d1 (c + 1) = d2 (c + 1) :=
      (List.Nodup.getElem_inj_iff hl).mp (Option.some.inj htop)
    by_cases hi : i = c + 1
    · rw [hi]; exact hde
    · have heq2 : shuffleAux d1 c (listSwap l (c + 1) (d1 (c + 1)))
          = shuffleAux d2 c (listSwap l (c + 1) (d1 (c + 1))) := by
        have := heq
        rw [shuffleAux, shuffleAux] at this
        rw [← hde] at this
        exact this
      have hnd : (listSwap l (c + 1) (d1 (c + 1))).Nodup :=
        (listSwap_perm l (c + 1) (d1 (c + 1))).nodup_iff.mpr hl
      have hln : c < (listSwap l (c + 1) (d1 (c + 1))).length := by
        rw [listSwap_length]; omega
      exact ih _ hnd hln heq2 i h1 (by omega)

theorem cons_perm_cons_same_tail {α : Type} [DecidableEq α] {a b : α} {t : List α}
    (h : (a :: t).Perm (b :: t)) : a = b := by
  by_contra hne
  have hc := List.perm_iff_count.mp h a
  rw [List.count_cons_self, List.count_cons_of_ne hne] at hc
  omega

/-- Every permutation of a list is reachable by the shuffle loop: there is a
valid draw sequence mapping to it. -/
theorem shuffleAux_surj {α : Type} [DecidableEq α] :
    ∀ (c : ℕ) (l m : List α), m.Perm l → c < l.length →
      (∀ k, c < k → m[k]? = l[k]?) →
      ∃ d : ℕ → ℕ, (∀ i, d i ≤ i) ∧ shuffleAux d c l = m := by
  intro c
  induction c with
  | zero =>
    intro l m hperm hc hagree
    refine ⟨fun _ => 0, fun i => Nat.zero_le i, ?_⟩
    show l = m
    cases l with
    | nil => simp at hc
    | cons a t =>
      cases m with
      | nil => exact absurd hperm.length_eq (by simp)
      | cons b s =>
        have hts : s = t := by
          apply List.ext_getElem?
          intro n
          have := hagree (n + 1) (by omega)
          simpa using this
        subst hts
        rw [cons_perm_cons_same_tail hperm]
  | succ c ih =>
    intro l m hperm hc hagree
    have hlen : m.length = l.length := hperm.length_eq
    have hc1 : c + 1 < m.length := by omega
    obtain ⟨a, ha⟩ : ∃ a, m[c + 1]? = some a := ⟨_, List.getElem?_eq_getElem hc1⟩
    have hdropeq : l.drop (c + 2) = m.drop (c + 2) := by
      apply List.ext_getElem?
      intro n
      rw [List.getElem?_drop, List.getElem?_drop]
      exact (hagree (c + 2 + n) (by omega)).symm
    have hmem : a ∈ m.take (c + 2) := by
      have h1 : (m.take (c + 2))[c + 1]? = some a := by
        rw [List.getElem?_take, if_pos (by omega)]; exact ha
      obtain ⟨hlt, he⟩ := List.getElem?_eq_some.mp h1
      exact he ▸ List.getElem_mem hlt
    have hcount : 0 < List.count a (l.take (c + 2)) := by
      have h1 : List.count a m = List.count a l := List.perm_iff_count.mp hperm a
      have h2 : List.count a (m.take (c + 2)) + List.count a (m.drop (c + 2))
          = List.count a m := by
        rw [← List.count_append, List.take_append_drop]
      have h3 : List.count a (l.take (c + 2)) + List.count a (l.drop (c + 2))
          = List.count a l := by
        rw [← List.count_append, List.take_append_drop]
      have h4 : 0 < List.count a (m.take (c + 2)) := List.count_pos_iff.mpr hmem
      rw [hdropeq] at h3
      omega
    obtain ⟨jx, hjx, hje⟩ : ∃ (n : ℕ) (h : n < (l.take (c + 2)).length),
        (l.take (c + 2))[n] = a := by
      obtain ⟨n, hn, he⟩ := List.getElem_of_mem (List.count_pos_iff.mp hcount)
      exact ⟨n, hn, he⟩
    have hjb : jx < c + 2 := by
      have := hjx
      rw [List.length_take] at this
      omega
    have hlj : l[jx]? = some a := by
      have := List.getElem?_take (l := l) (n := c + 2) (m := jx)
      rw [if_pos hjb] at this
      rw [← this, List.getElem?_eq_getElem hjx, hje]
    have hjlen : jx < l.length := by
      obtain ⟨h, -⟩ := List.getElem?_eq_some.mp hlj
      exact h
    have hswperm := listSwap_perm l (c + 1) jx
    have hswlen : (listSwap l (c + 1) jx).length = l.length := listSwap_length l (c + 1) jx
    have hagree2 : ∀ k, c < k → m[k]? = (listSwap l (c + 1) jx)[k]? := by
      intro k hk
      by_cases hkc : k = c + 1
      · subst hkc
        rw [listSwap_getElem?_left l (c + 1) jx (by omega) hjlen, hlj, ha]
      · rw [listSwap_getElem?_ne l (c + 1) jx k hkc (by omega)]
        exact hagree k (by omega)
    obtain ⟨d, hdv, hde⟩ := ih (listSwap l (c + 1) jx) m
      (hperm.trans hswperm.symm) (by omega) hagree2
    refine ⟨fun i => if i = c + 1 then jx else d i, ?_, ?_⟩
    · intro i
      show (if i = c + 1 then jx else d i) ≤ i
      by_cases hi : i = c + 1
      · rw [if_pos hi, hi]; omega
      · rw [if_neg hi]; exact hdv i
    · rw [shuffleAux, if_pos rfl]
      rw [shuffleAux_congr _ d c _ (fun i h1 h2 => by
        show (if i = c + 1 then jx else d i) = d i
        rw [if_neg (by omega)])]
      exact hde

theorem toDraws_le {n : ℕ} (d : DrawSeq n) (i : ℕ) : toDraws d i ≤ i := by
  unfold toDraws
  split
  · next h => exact Nat.lt_succ_iff.mp (d ⟨i, h⟩).isLt
  · exact Nat.zero_le i

theorem shuffleArray_perm {α : Type} (draws : ℕ → ℕ) (l : List α) :
    (shuffleArray draws l).Perm l :=
  shuffleAux_perm draws (l.length - 1) l

theorem perm_toFinset_eq {α : Type} [DecidableEq α] {u w : List α} (h : u.Perm w) :
    u.toFinset = w.toFinset := by
  ext x
  simp only [List.mem_toFinset]
  exact h.mem_iff

theorem perm_of_nodup_toFinset_eq {α : Type} [DecidableEq α] {u w : List α}
    (hu : u.Nodup) (hw : w.Nodup) (h : u.toFinset = w.toFinset) : u.Perm w := by
  apply List.perm_iff_count.mpr
  intro a
  by_cases ha : a ∈ u
  · have haw : a ∈ w := by
      rw [← List.mem_toFinset, ← h, List.mem_toFinset]; exact ha
    rw [List.count_eq_one_of_mem hu ha, List.count_eq_one_of_mem hw haw]
  · have haw : a ∉ w := by
      rw [← List.mem_toFinset, ← h, List.mem_toFinset]; exact ha
    rw [List.count_eq_zero.mpr ha, List.count_eq_zero.mpr haw]

/-- The map from complete draw sequences to shuffle outcomes is a bijection
onto the permutations of a duplicate-free list: restricted to any predicate
on outcomes, preimage counts and outcome counts agree. -/
theorem card_filter_shuffleArray {α : Type} [DecidableEq α] (l : List α)
    (hl : l.Nodup) (hne : l ≠ []) (p : List α → Prop) [DecidablePred p] :
    ((Finset.univ : Finset (DrawSeq l.length)).filter
        (fun d => p (shuffleArray (toDraws d) l))).card
      = (l.permutations.toFinset.filter p).card := by
  have hn : 0 < l.length := List.length_pos.mpr hne
  apply Finset.card_bij (fun d _ => shuffleArray (toDraws d) l)
  · intro d hd
    rw [Finset.mem_filter] at hd ⊢
    refine ⟨?_, hd.2⟩
    rw [List.mem_toFinset, List.mem_permutations]
    exact shuffleArray_perm (toDraws d) l
  · intro d1 h1 d2 h2 heq
    have hkey := shuffleAux_inj (toDraws d1) (toDraws d2) (toDraws_le d1) (toDraws_le d2)
      (l.length - 1) l hl (by omega) heq
    funext i
    by_cases hi : i.val = 0
    · have e1 : (d1 i).val = 0 := by omega
      have e2 : (d2 i).val = 0 := by omega
      exact Fin.ext (e1.trans e2.symm)
    · have h3 : toDraws d1 i.val = toDraws d2 i.val :=
        hkey i.val (by omega) (by have := i.isLt; omega)
      unfold toDraws at h3
      rw [dif_pos i.isLt, dif_pos i.isLt] at h3
      exact Fin.ext (by simpa using h3)
  · intro m hm
    rw [Finset.mem_filter, List.mem_toFinset, List.mem_permutations] at hm
    obtain ⟨d, hdv, hde⟩ := shuffleAux_surj (l.length - 1) l m hm.1 (by omega)
      (fun k hk => by
        have hml : m.length = l.length := hm.1.length_eq
        rw [List.getElem?_eq_none (by omega), List.getElem?_eq_none (by omega)])
    refine ⟨fun i => ⟨d i.val, Nat.lt_succ_of_le (hdv i.val)⟩, Finset.mem_filter.mpr
      ⟨Finset.mem_univ _, ?_⟩, ?_⟩
    · show p (shuffleArray _ l)
      unfold shuffleArray
      rw [shuffleAux_congr _ d (l.length - 1) l (fun i h1 h2 => by
        unfold toDraws
        rw [dif_pos (by omega)])]
      rw [hde]
      exact hm.2
    · show shuffleArray _ l = m
      unfold shuffleArray
      rw [shuffleAux_congr _ d (l.length - 1) l (fun i h1 h2 => by
        unfold toDraws
        rw [dif_pos (by omega)])]
      exact hde

/-- Among all permutations of a duplicate-free list, exactly
`cap! * (length - cap)!` of them start (as a set) with a given `cap`-element
subset of the list's elements.  In particular the count does not depend on the
choice of subset. -/
theorem card_permutations_take_toFinset {α : Type} [DecidableEq α] (l : List α)
    (hl : l.Nodup) (cap : ℕ) (hcap : cap ≤ l.length) (S : Finset α)
    (hS : S ⊆ l.toFinset) (hSc : S.card = cap) :
    (l.permutations.toFinset.filter (fun m => (m.take cap).toFinset = S)).card
      = cap.factorial * (l.length - cap).factorial := by
  have hlS : S.toList.Nodup := Finset.nodup_toList S
  have hlC : (l.toFinset \ S).toList.Nodup := Finset.nodup_toList _
  have hlSf : S.toList.toFinset = S := Finset.toList_toFinset S
  have hlCf : (l.toFinset \ S).toList.toFinset = l.toFinset \ S := Finset.toList_toFinset _
  have hlSlen : S.toList.length = cap := by rw [Finset.length_toList, hSc]
  have hlClen : (l.toFinset \ S).toList.length = l.length - cap := by
    rw [Finset.length_toList, Finset.card_sdiff hS, List.toFinset_card_of_nodup hl, hSc]
  have hdisj : S.toList.Disjoint (l.toFinset \ S).toList := by
    intro x hx1 hx2
    rw [← List.mem_toFinset, hlSf] at hx1
    rw [← List.mem_toFinset, hlCf, Finset.mem_sdiff] at hx2
    exact hx2.2 hx1
  have happnd : (S.toList ++ (l.toFinset \ S).toList).Nodup :=
    List.nodup_append.mpr ⟨hlS, hlC, hdisj⟩
  have happerm : (S.toList ++ (l.toFinset \ S).toList).Perm l := by
    apply perm_of_nodup_toFinset_eq happnd hl
    rw [List.toFinset_append, hlSf, hlCf]
    exact Finset.union_sdiff_of_subset hS
  rw [show (l.permutations.toFinset.filter (fun m => (m.take cap).toFinset = S)).card
      = (S.toList.permutations.toFinset ×ˢ (l.toFinset \ S).toList.permutations.toFinset).card
      from ?_]
  · rw [Finset.card_product]
    have c1 : S.toList.permutations.toFinset.card = cap.factorial := by
      rw [List.toFinset_card_of_nodup (List.nodup_permutations _ hlS),
        List.length_permutations, hlSlen]
    have c2 : (l.toFinset \ S).toList.permutations.toFinset.card
        = (l.length - cap).factorial := by
      rw [List.toFinset_card_of_nodup (List.nodup_permutations _ hlC),
        List.length_permutations, hlClen]
    rw [c1, c2]
  · refine Finset.card_bij' (fun m _ => (m.take cap, m.drop cap))
      (fun q _ => q.1 ++ q.2) ?_ ?_ ?_ ?_
    · intro m hm
      rw [Finset.mem_filter, List.mem_toFinset, List.mem_permutations] at hm
      obtain ⟨hmp, hmtf⟩ := hm
      have hmnd : m.Nodup := hmp.nodup_iff.mpr hl
      have htknd : (m.take cap).Nodup := (List.take_sublist cap m).nodup hmnd
      have hdrnd : (m.drop cap).Nodup := (List.drop_sublist cap m).nodup hmnd
      have hmdisj : (m.take cap).Disjoint (m.drop cap) := by
        have := hmnd
        rw [← List.take_append_drop cap m] at this
        exact (List.nodup_append.mp this).2.2
      have hmtf2 : m.toFinset = l.toFinset := perm_toFinset_eq hmp
      have hmsplit : (m.take cap).toFinset ∪ (m.drop cap).toFinset = l.toFinset := by
        rw [← List.toFinset_append, List.take_append_drop, hmtf2]
      have hdrf : (m.drop cap).toFinset = l.toFinset \ S := by
        ext x
        rw [Finset.mem_sdiff]
        constructor
        · intro hx
          refine ⟨?_, ?_⟩
          · rw [← hmsplit]; exact Finset.mem_union_right _ hx
          · intro hxs
            rw [← hmtf, List.mem_toFinset] at hxs
            exact hmdisj hxs (List.mem_toFinset.mp hx)
        · rintro ⟨hx1, hx2⟩
          rw [← hmsplit, Finset.mem_union] at hx1
          rcases hx1 with hx1 | hx1
          · exact absurd (hmtf ▸ hx1) hx2
          · exact hx1
      rw [Finset.mem_product]
      constructor
      · rw [List.mem_toFinset, List.mem_permutations]
        exact perm_of_nodup_toFinset_eq htknd hlS (by rw [hmtf, hlSf])
      · rw [List.mem_toFinset, List.mem_permutations]
        exact perm_of_nodup_toFinset_eq hdrnd hlC (by rw [hdrf, hlCf])
    · intro q hq
      rw [Finset.mem_product, List.mem_toFinset, List.mem_permutations,
        List.mem_toFinset, List.mem_permutations] at hq
      obtain ⟨hq1, hq2⟩ := hq
      rw [Finset.mem_filter, List.mem_toFinset, List.mem_permutations]
      have hq1len : q.1.length = cap := by rw [hq1.length_eq, hlSlen]
      constructor
      · exact (hq1.append hq2).trans happerm
      · rw [show (q.1 ++ q.2).take cap = q.1 from by
          rw [← hq1len]; exact List.take_left q.1 q.2]
        rw [perm_toFinset_eq hq1, hlSf]
    · intro m hm
      exact List.take_append_drop cap m
    · intro q hq
      rw [Finset.mem_product, List.mem_toFinset, List.mem_permutations] at hq
      have hq1len : q.1.length = cap := by rw [hq.1.length_eq, hlSlen]
      have e1 : (q.1 ++ q.2).take cap = q.1 := by
        rw [← hq1len]; exact List.take_left q.1 q.2
      have e2 : (q.1 ++ q.2).drop cap = q.2 := by
        rw [← hq1len]; exact List.drop_left q.1 q.2
      show ((q.1 ++ q.2).take cap, (q.1 ++ q.2).drop cap) = q
      rw [e1, e2]

/-- Under a uniform random source the retained subset is unbiased: any two
candidate `cap`-element subsets of a duplicate-free list are produced by
exactly the same number of draw sequences. -/
theorem card_drawSeq_take_eq {α : Type} [DecidableEq α] (l : List α)
    (hl : l.Nodup) (hne : l ≠ []) (cap : ℕ) (hcap : cap ≤ l.length)
    (S T : Finset α) (hS : S ⊆ l.toFinset) (hT : T ⊆ l.toFinset)
    (hSc : S.card = cap) (hTc : T.card = cap) :
    ((Finset.univ : Finset (DrawSeq l.length)).filter
        (fun d => ((shuffleArray (toDraws d) l).take cap).toFinset = S)).card
      = ((Finset.univ : Finset (DrawSeq l.length)).filter
        (fun d => ((shuffleArray (toDraws d) l).take cap).toFinset = T)).card := by
  rw [card_filter_shuffleArray l hl hne (fun m => (m.take cap).toFinset = S),
    card_filter_shuffleArray l hl hne (fun m => (m.take cap).toFinset = T),
    card_permutations_take_toFinset l hl cap hcap S hS hSc,
    card_permutations_take_toFinset l hl cap hcap T hT hTc]

/-! ### Properties of the pixel scan -/

theorem drawDims_pos (img : ImageData) (hw : 0 < img.width) (hh : 0 < img.height) :
    0 < (drawDims img).1 ∧ 0 < (drawDims img).2 := by
  have ha : (0 : ℚ) < (img.width : ℚ) / (img.height : ℚ) :=
    div_pos (by exact_mod_cast hw) (by exact_mod_cast hh)
  simp only [drawDims]
  split
  · next h => exact ⟨by norm_num, by positivity⟩
  · next h => constructor
              · positivity
              · norm_num

theorem keptPixel_inj (img : ImageData) (hw : 0 < img.width) (hh : 0 < img.height)
    {px1 py1 px2 py2 : ℕ} (h : keptPixel img px1 py1 = keptPixel img px2 py2) :
    px1 = px2 ∧ py1 = py2 := by
  obtain ⟨hdW, hdH⟩ := drawDims_pos img hw hh
  have hwQ : ((img.width : ℚ)) ≠ 0 := by
    have : (0 : ℚ) < (img.width : ℚ) := by exact_mod_cast hw
    exact ne_of_gt this
  have hhQ : ((img.height : ℚ)) ≠ 0 := by
    have : (0 : ℚ) < (img.height : ℚ) := by exact_mod_cast hh
    exact ne_of_gt this
  have hx : ((px1 : ℚ) / (img.width : ℚ) - 1/2) * (drawDims img).1
      = ((px2 : ℚ) / (img.width : ℚ) - 1/2) * (drawDims img).1 := congrArg Pixel.x h
  have hy : -(((py1 : ℚ) / (img.height : ℚ)) - 1/2) * (drawDims img).2
      = -(((py2 : ℚ) / (img.height : ℚ)) - 1/2) * (drawDims img).2 := congrArg Pixel.y h
  constructor
  · have h1 : ((px1 : ℚ) / (img.width : ℚ) - 1/2) = ((px2 : ℚ) / (img.width : ℚ) - 1/2) :=
      mul_right_cancel₀ (ne_of_gt hdW) hx
    have h2 : (px1 : ℚ) / (img.width : ℚ) = (px2 : ℚ) / (img.width : ℚ) := by linarith
    have h3 := congrArg (fun t => t * (img.width : ℚ)) h2
    simp only [div_mul_cancel₀ _ hwQ] at h3
    exact_mod_cast h3
  · have h1 : -(((py1 : ℚ) / (img.height : ℚ)) - 1/2)
        = -(((py2 : ℚ) / (img.height : ℚ)) - 1/2) :=
      mul_right_cancel₀ (ne_of_gt hdH) hy
    have h2 : (py1 : ℚ) / (img.height : ℚ) = (py2 : ℚ) / (img.height : ℚ) := by linarith
    have h3 := congrArg (fun t => t * (img.height : ℚ)) h2
    simp only [div_mul_cancel₀ _ hhQ] at h3
    exact_mod_cast h3

/-- Characterization of the scan output: a point is emitted exactly for the
kept pixels, i.e. the grid positions whose alpha byte exceeds 20. -/
theorem mem_validPixels (img : ImageData) (p : Pixel) :
    p ∈ validPixels img ↔ ∃ px py, px < img.width ∧ py < img.height ∧
      20 < pixelAlpha img px py ∧ p = keptPixel img px py := by
  unfold validPixels
  rw [List.mem_flatMap]
  constructor
  · rintro ⟨py, hpy, hmem⟩
    rw [List.mem_filterMap] at hmem
    obtain ⟨px, hpx, hif⟩ := hmem
    rw [List.mem_range] at hpy hpx
    split at hif
    · next hα => exact ⟨px, py, hpx, hpy, hα, (Option.some.inj hif).symm⟩
    · exact absurd hif (by simp)
  · rintro ⟨px, py, hpx, hpy, hα, rfl⟩
    refine ⟨py, List.mem_range.mpr hpy, ?_⟩
    rw [List.mem_filterMap]
    exact ⟨px, List.mem_range.mpr hpx, by rw [if_pos hα]⟩

theorem validPixels_nodup (img : ImageData) (hw : 0 < img.width) (hh : 0 < img.height) :
    (validPixels img).Nodup := by
  unfold validPixels
  rw [List.nodup_flatMap]
  constructor
  · intro py hpy
    apply List.Nodup.filterMap
    · intro px1 px2 b hb1 hb2
      split at hb1
      · split at hb2
        · have e1 := Option.mem_some_iff.mp hb1
          have e2 := Option.mem_some_iff.mp hb2
          exact (keptPixel_inj img hw hh (e1.trans e2.symm)).1
        · exact absurd hb2 (by simp)
      · exact absurd hb1 (by simp)
    · exact List.nodup_range _
  · apply List.Pairwise.imp ?_ (List.pairwise_lt_range img.height)
    intro py1 py2 hlt b hb1 hb2
    rw [List.mem_filterMap] at hb1 hb2
    obtain ⟨px1, -, hif1⟩ := hb1
    obtain ⟨px2, -, hif2⟩ := hb2
    split at hif1
    · split at hif2
      · have e1 := Option.some.inj hif1
        have e2 := Option.some.inj hif2
        have := (keptPixel_inj img hw hh (e1.trans e2.symm)).2
        omega
      · exact absurd hif2 (by simp)
    · exact absurd hif1 (by simp)

/-- The pixel-path condition of `generateShapePositions` (geometry.ts line 66):
`(type === IMAGE || type === TEXT) && imageData && imageData.width > 0`.
Shape identifiers are modelled as the runtime strings of the `ShapeType`
enum (`types.ts`). -/
def takesPixelPath (ty : String) (img : Option ImageData) : Prop :=
  (ty = "Image" ∨ ty = "Text") ∧ ∃ d, img = some d ∧ 0 < d.width

instance (ty : String) (img : Option ImageData) : Decidable (takesPixelPath ty img) := by
  unfold takesPixelPath
  cases img with
  | none => exact isFalse (by rintro ⟨-, d, h, -⟩; cases h)
  | some d =>
      by_cases h1 : (ty = "Image" ∨ ty = "Text")
      · by_cases h2 : 0 < d.width
        · exact isTrue ⟨h1, d, rfl, h2⟩
        · exact isFalse (by rintro ⟨-, e, he, hw⟩; cases he; exact h2 hw)
      · exact isFalse (by rintro ⟨h, -⟩; exact h1 h)

/-- The `currentCount` returned by `generateShapePositions`: the pixel branch
returns its capped kept-pixel count, every other path returns
`PROCEDURAL_COUNT` (geometry.ts lines 63, 105-110, 126, 503). -/
def generateCurrentCount (ty : String) (img : Option ImageData) : ℕ :=
  match img with
  | some d => if (ty = "Image" ∨ ty = "Text") ∧ 0 < d.width then imageActiveCount d
              else PROCEDURAL_COUNT
  | none => PROCEDURAL_COUNT

/-! ### The image-branch fill loop -/

/-- The pixel list read by the fill loop: `validPixels`, shuffled in place
when it exceeds capacity (geometry.ts lines 105-110). -/
def keptPixels (img : ImageData) (draws : ℕ → ℕ) : List Pixel :=
  if MAX_PARTICLE_COUNT < (validPixels img).length then shuffleArray draws (validPixels img)
  else validPixels img

/-- The two flat `Float32Array(MAX_PARTICLE_COUNT * 3)` buffers filled by the
image branch (geometry.ts lines 59, 67). -/
structure ImageBuffers where
  positions : List ℚ
  colors : List ℚ

def defaultPixel : Pixel := ⟨0, 0, 0, 0, 0⟩

/-- One iteration of the fill loop (geometry.ts lines 113-124): write the
pixel's x/y plus a z-jitter `(random - 0.5) * 0.5` into `positions` and its
r/g/b into `colors`, at flat offsets `i*3 .. i*3+2`. -/
def imageFillStep (img : ImageData) (draws : ℕ → ℕ) (zr : ℕ → ℚ)
    (buf : ImageBuffers) (i : ℕ) : ImageBuffers :=
  let p := (keptPixels img draws).getD i defaultPixel
  { positions := ((buf.positions.set (i * 3) p.x).set (i * 3 + 1) p.y).set (i * 3 + 2)
      ((zr i - 1/2) * (1/2)),
    colors := ((buf.colors.set (i * 3) p.r).set (i * 3 + 1) p.g).set (i * 3 + 2) p.b }

/-- The whole fill loop of the image branch (geometry.ts lines 112-124),
starting from the two zero-initialized buffers. -/
def imageFill (img : ImageData) (draws : ℕ → ℕ) (zr : ℕ → ℚ) : ImageBuffers :=
  (List.range (imageActiveCount img)).foldl (imageFillStep img draws zr)
    ⟨List.replicate (MAX_PARTICLE_COUNT * 3) 0, List.replicate (MAX_PARTICLE_COUNT * 3) 0⟩

theorem imageFill_foldl_length (img : ImageData) (draws : ℕ → ℕ) (zr : ℕ → ℚ) :
    ∀ (n : ℕ) (b : ImageBuffers),
      ((List.range n).foldl (imageFillStep img draws zr) b).positions.length
          = b.positions.length ∧
      ((List.range n).foldl (imageFillStep img draws zr) b).colors.length
          = b.colors.length := by
  intro n
  induction n with
  | zero => intro b; exact ⟨rfl, rfl⟩
  | succ n ih =>
    intro b
    rw [List.range_succ, List.foldl_append]
    obtain ⟨h1, h2⟩ := ih b
    constructor
    · simp only [List.foldl_cons, List.foldl_nil, imageFillStep, List.length_set]
      exact h1
    · simp only [List.foldl_cons, List.foldl_nil, imageFillStep, List.length_set]
      exact h2

/-- What the fill loop leaves at offsets `j*3 .. j*3+2` of both buffers, for
any iteration `j` that the loop reaches. -/
theorem imageFill_foldl_getElem (img : ImageData) (draws : ℕ → ℕ) (zr : ℕ → ℚ) :
    ∀ (n : ℕ) (b : ImageBuffers), 3 * n ≤ b.positions.length → 3 * n ≤ b.colors.length →
      ∀ j, j < n →
      (((List.range n).foldl (imageFillStep img draws zr) b).positions[j * 3]?
          = some ((keptPixels img draws).getD j defaultPixel).x ∧
        ((List.range n).foldl (imageFillStep img draws zr) b).positions[j * 3 + 1]?
          = some ((keptPixels img draws).getD j defaultPixel).y ∧
        ((List.range n).foldl (imageFillStep img draws zr) b).positions[j * 3 + 2]?
          = some ((zr j - 1/2) * (1/2))) ∧
      (((List.range n).foldl (imageFillStep img draws zr) b).colors[j * 3]?
          = some ((keptPixels img draws).getD j defaultPixel).r ∧
        ((List.range n).foldl (imageFillStep img draws zr) b).colors[j * 3 + 1]?
          = some ((keptPixels img draws).getD j defaultPixel).g ∧
        ((List.range n).foldl (imageFillStep img draws zr) b).colors[j * 3 + 2]?
          = some ((keptPixels img draws).getD j defaultPixel).b) := by
  intro n
  induction n with
  | zero => intro b _ _ j hj; omega
  | succ n ih =>
    intro b hbp hbc j hj
    rw [List.range_succ, List.foldl_append]
    set B := (List.range n).foldl (imageFillStep img draws zr) b with hB
    obtain ⟨hBp, hBc⟩ := imageFill_foldl_length img draws zr n b
    by_cases hjn : j = n
    · subst hjn
      constructor
      · refine ⟨?_, ?_, ?_⟩
        · show (((B.positions.set _ _).set _ _).set _ _)[j * 3]? = _
          rw [List.getElem?_set_ne (by omega), List.getElem?_set_ne (by omega),
            List.getElem?_set_self (by rw [hBp]; omega)]
        · show (((B.positions.set _ _).set _ _).set _ _)[j * 3 + 1]? = _
          rw [List.getElem?_set_ne (by omega),
            List.getElem?_set_self (by rw [List.length_set, hBp]; omega)]
        · show (((B.positions.set _ _).set _ _).set _ _)[j * 3 + 2]? = _
          rw [List.getElem?_set_self
            (by rw [List.length_set, List.length_set, hBp]; omega)]
      · refine ⟨?_, ?_, ?_⟩
        · show (((B.colors.set _ _).set _ _).set _ _)[j * 3]? = _
          rw [List.getElem?_set_ne (by omega), List.getElem?_set_ne (by omega),
            List.getElem?_set_self (by rw [hBc]; omega)]
        · show (((B.colors.set _ _).set _ _).set _ _)[j * 3 + 1]? = _
          rw [List.getElem?_set_ne (by omega),
            List.getElem?_set_self (by rw [List.length_set, hBc]; omega)]
        · show (((B.colors.set _ _).set _ _).set _ _)[j * 3 + 2]? = _
          rw [List.getElem?_set_self
            (by rw [List.length_set, List.length_set, hBc]; omega)]
    · have hjlt : j < n := by omega
      obtain ⟨⟨p0, p1, p2⟩, ⟨c0, c1, c2⟩⟩ := ih b (by omega) (by omega) j hjlt
      constructor
      · refine ⟨?_, ?_, ?_⟩
        · show (((B.positions.set _ _).set _ _).set _ _)[j * 3]? = _
          rw [List.getElem?_set_ne (by omega), List.getElem?_set_ne (by omega),
            List.getElem?_set_ne (by omega)]
          exact p0
        · show (((B.positions.set _ _).set _ _).set _ _)[j * 3 + 1]? = _
          rw [List.getElem?_set_ne (by omega), List.getElem?_set_ne (by omega),
            List.getElem?_set_ne (by omega)]
          exact p1
        · show (((B.positions.set _ _).set _ _).set _ _)[j * 3 + 2]? = _
          rw [List.getElem?_set_ne (by omega), List.getElem?_set_ne (by omega),
            List.getElem?_set_ne (by omega)]
          exact p2
      · refine ⟨?_, ?_, ?_⟩
        · show (((B.colors.set _ _).set _ _).set _ _)[j * 3]? = _
          rw [List.getElem?_set_ne (by omega), List.getElem?_set_ne (by omega),
            List.getElem?_set_ne (by omega)]
          exact c0
        · show (((B.colors.set _ _).set _ _).set _ _)[j * 3 + 1]? = _
          rw [List.getElem?_set_ne (by omega), List.getElem?_set_ne (by omega),
            List.getElem?_set_ne (by omega)]
          exact c1
        · show (((B.colors.set _ _).set _ _).set _ _)[j * 3 + 2]? = _
          rw [List.getElem?_set_ne (by omega), List.getElem?_set_ne (by omega),
            List.getElem?_set_ne (by omega)]
          exact c2

theorem imageActiveCount_le (img : ImageData) :
    imageActiveCount img ≤ (validPixels img).length := by
  unfold imageActiveCount
  split
  · next h => omega
  · exact le_refl _

theorem imageActiveCount_le_max (img : ImageData) :
    imageActiveCount img ≤ MAX_PARTICLE_COUNT := by
  unfold imageActiveCount
  split
  · exact le_refl _
  · next h => omega

theorem keptPixels_length (img : ImageData) (draws : ℕ → ℕ) :
    (keptPixels img draws).length = (validPixels img).length := by
  unfold keptPixels
  split
  · exact (shuffleArray_perm draws (validPixels img)).length_eq
  · rfl

theorem keptPixels_subset (img : ImageData) (draws : ℕ → ℕ) {p : Pixel}
    (hp : p ∈ keptPixels img draws) : p ∈ validPixels img := by
  unfold keptPixels at hp
  split at hp
  · exact (shuffleArray_perm draws (validPixels img)).mem_iff.mp hp
  · exact hp

theorem getD_mem_of_lt {α : Type} (l : List α) (i : ℕ) (d : α) (h : i < l.length) :
    l.getD i d ∈ l := by
  rw [List.getD_eq_getElem?_getD, List.getElem?_eq_getElem h]
  simpa using List.getElem_mem h

theorem getD_le_of_bytes (data : List ℕ) (h : ∀ v ∈ data, v ≤ 255) (idx : ℕ) :
    data.getD idx 0 ≤ 255 := by
  rw [List.getD_eq_getElem?_getD]
  cases hidx : data[idx]? with
  | none => simp
  | some v =>
    obtain ⟨hl, he⟩ := List.getElem?_eq_some.mp hidx
    simpa using h v (he ▸ List.getElem_mem hl)

/-! ### Claim C9 -/

/-- Claim C9: every point emitted by the pixel-derived regime for a kept pixel
at grid position `(px, py)` has `x = (px/width - 0.5)*drawW` and
`y = -(py/height - 0.5)*drawH`, with `(drawW, drawH)` aspect-preserving inside
the 14×14 box (hence `|x| ≤ 7`, `|y| ≤ 7`), a z-jitter in `[-0.25, 0.25]`, and
color equal to the pixel's RGB bytes divided by 255 (each in `[0,1]`). -/
theorem C9_pixel_mapping (img : ImageData) (hw : 0 < img.width) (hh : 0 < img.height)
    (hdata : ∀ v ∈ img.data, v ≤ 255) (draws : ℕ → ℕ) (zr : ℕ → ℚ)
    (hzr : ∀ n, 0 ≤ zr n ∧ zr n < 1) :
    (0 < (drawDims img).1 ∧ (drawDims img).1 ≤ 14 ∧
      0 < (drawDims img).2 ∧ (drawDims img).2 ≤ 14 ∧
      (drawDims img).1 / (drawDims img).2 = (img.width : ℚ) / (img.height : ℚ)) ∧
    ∀ i, i < imageActiveCount img →
      ∃ px py, px < img.width ∧ py < img.height ∧ 20 < pixelAlpha img px py ∧
        (imageFill img draws zr).positions[i * 3]?
            = some (((px : ℚ) / (img.width : ℚ) - 1/2) * (drawDims img).1) ∧
        (imageFill img draws zr).positions[i * 3 + 1]?
            = some (-(((py : ℚ) / (img.height : ℚ)) - 1/2) * (drawDims img).2) ∧
        (imageFill img draws zr).positions[i * 3 + 2]? = some ((zr i - 1/2) * (1/2)) ∧
        |((px : ℚ) / (img.width : ℚ) - 1/2) * (drawDims img).1| ≤ 7 ∧
        |(-(((py : ℚ) / (img.height : ℚ)) - 1/2) * (drawDims img).2)| ≤ 7 ∧
        -(1/4) ≤ (zr i - 1/2) * (1/2) ∧ (zr i - 1/2) * (1/2) ≤ 1/4 ∧
        (imageFill img draws zr).colors[i * 3]?
            = some ((img.data.getD ((py * img.width + px) * 4) 0 : ℚ) / 255) ∧
        (imageFill img draws zr).colors[i * 3 + 1]?
            = some ((img.data.getD ((py * img.width + px) * 4 + 1) 0 : ℚ) / 255) ∧
        (imageFill img draws zr).colors[i * 3 + 2]?
            = some ((img.data.getD ((py * img.width + px) * 4 + 2) 0 : ℚ) / 255) ∧
        (∀ k, 0 ≤ (img.data.getD ((py * img.width + px) * 4 + k) 0 : ℚ) / 255 ∧
          (img.data.getD ((py * img.width + px) * 4 + k) 0 : ℚ) / 255 ≤ 1) := by
  have haQ : (0 : ℚ) < (img.width : ℚ) / (img.height : ℚ) :=
    div_pos (by exact_mod_cast hw) (by exact_mod_cast hh)
  obtain ⟨hdW, hdH⟩ := drawDims_pos img hw hh
  have hwQ : (0 : ℚ) < (img.width : ℚ) := by exact_mod_cast hw
  have hhQ : (0 : ℚ) < (img.height : ℚ) := by exact_mod_cast hh
  have hdims : (drawDims img).1 ≤ 14 ∧ (drawDims img).2 ≤ 14 ∧
      (drawDims img).1 / (drawDims img).2 = (img.width : ℚ) / (img.height : ℚ) := by
    simp only [drawDims]
    split
    · next h =>
      refine ⟨by norm_num, ?_, ?_⟩
      · show (14 : ℚ) / _ ≤ 14
        rw [div_le_iff₀ haQ]
        nlinarith
      · show (14 : ℚ) / ((14 : ℚ) / _) = _
        have hne : (img.width : ℚ) / (img.height : ℚ) ≠ 0 := ne_of_gt haQ
        field_simp
        ring
    · next h =>
      push_neg at h
      refine ⟨?_, by norm_num, ?_⟩
      · show (14 : ℚ) * _ ≤ 14
        nlinarith
      · show ((14 : ℚ) * _) / 14 = _
        field_simp
        ring
  refine ⟨⟨hdW, hdims.1, hdH, hdims.2.1, hdims.2.2⟩, ?_⟩
  intro i hi
  have hkl : (keptPixels img draws).length = (validPixels img).length :=
    keptPixels_length img draws
  have hac := imageActiveCount_le img
  have hik : i < (keptPixels img draws).length := by omega
  have hget : (keptPixels img draws).getD i defaultPixel ∈ validPixels img :=
    keptPixels_subset img draws (getD_mem_of_lt _ i defaultPixel hik)
  obtain ⟨px, py, hpx, hpy, hα, hpe⟩ := (mem_validPixels img _).mp hget
  have hmax := imageActiveCount_le_max img
  have hext := imageFill_foldl_getElem img draws zr (imageActiveCount img)
    ⟨List.replicate (MAX_PARTICLE_COUNT * 3) 0, List.replicate (MAX_PARTICLE_COUNT * 3) 0⟩
    (by rw [List.length_replicate]; omega) (by rw [List.length_replicate]; omega) i hi
  rw [hpe] at hext
  obtain ⟨⟨e0, e1, e2⟩, ⟨f0, f1, f2⟩⟩ := hext
  have hx01 : (0 : ℚ) ≤ (px : ℚ) / (img.width : ℚ) := by positivity
  have hx1 : (px : ℚ) / (img.width : ℚ) ≤ 1 := by
    rw [div_le_one hwQ]
    exact_mod_cast Nat.le_of_lt hpx
  have hy01 : (0 : ℚ) ≤ (py : ℚ) / (img.height : ℚ) := by positivity
  have hy1 : (py : ℚ) / (img.height : ℚ) ≤ 1 := by
    rw [div_le_one hhQ]
    exact_mod_cast Nat.le_of_lt hpy
  have hzi := hzr i
  refine ⟨px, py, hpx, hpy, hα, e0, e1, e2, ?_, ?_, by linarith [hzi.1], by linarith [hzi.2],
    f0, f1, f2, ?_⟩
  · rw [abs_mul, abs_of_pos hdW]
    have h1 : |(px : ℚ) / (img.width : ℚ) - 1/2| ≤ 1/2 :=
      abs_le.mpr ⟨by linarith, by linarith⟩
    calc |(px : ℚ) / (img.width : ℚ) - 1/2| * (drawDims img).1
        ≤ (1/2) * 14 := mul_le_mul h1 hdims.1 (le_of_lt hdW) (by norm_num)
      _ = 7 := by norm_num
  · rw [abs_mul, abs_neg, abs_of_pos hdH]
    have h1 : |(py : ℚ) / (img.height : ℚ) - 1/2| ≤ 1/2 :=
      abs_le.mpr ⟨by linarith, by linarith⟩
    calc |(py : ℚ) / (img.height : ℚ) - 1/2| * (drawDims img).2
        ≤ (1/2) * 14 := mul_le_mul h1 hdims.2.1 (le_of_lt hdH) (by norm_num)
      _ = 7 := by norm_num
  · intro k
    constructor
    · positivity
    · rw [div_le_one (by norm_num)]
      have := getD_le_of_bytes img.data hdata ((py * img.width + px) * 4 + k)
      exact_mod_cast this

/-- C9 witness: the 1×1 opaque buffer instantiates the pixel mapping. -/
theorem C9_pixel_mapping_witness :
    ((drawDims ⟨1, 1, [129, 7, 7, 255]⟩).1 / (drawDims ⟨1, 1, [129, 7, 7, 255]⟩).2
      = ((1 : ℕ) : ℚ) / ((1 : ℕ) : ℚ)) ∧
    ∃ px py, px < 1 ∧ py < 1 ∧ 20 < pixelAlpha ⟨1, 1, [129, 7, 7, 255]⟩ px py := by
  have h := C9_pixel_mapping ⟨1, 1, [129, 7, 7, 255]⟩ (by decide) (by decide) (by decide)
    (fun _ => 0) (fun _ => 0) (fun n => by norm_num)
  refine ⟨h.1.2.2.2.2, ?_⟩
  obtain ⟨px, py, h1, h2, h3, -⟩ := h.2 0 (by decide)
  exact ⟨px, py, h1, h2, h3⟩

/-! ### Claim C1 -/

/-- Claim C1: in the pixel-derived regime, if exactly `K` pixels have alpha
strictly greater than 20 then `activeCount = K` for `K ≤ 40000` and
`activeCount = 40000` for `K > 40000`; the retained pixels are the prefix of a
full Fisher-Yates shuffle (always a permutation of the kept pixels), and under
a uniform random source every 40000-element subset of the kept pixels is
retained by exactly as many draw sequences as any other. -/
theorem C1_pixel_count_and_uniform_subsample (img : ImageData) (K : ℕ)
    (hw : 0 < img.width) (hh : 0 < img.height)
    (hK : (validPixels img).length = K) :
    (K ≤ MAX_PARTICLE_COUNT → imageActiveCount img = K) ∧
    (MAX_PARTICLE_COUNT < K → imageActiveCount img = MAX_PARTICLE_COUNT) ∧
    (∀ d : ℕ → ℕ, (shuffleArray d (validPixels img)).Perm (validPixels img)) ∧
    (MAX_PARTICLE_COUNT < K →
      ∀ S T : Finset Pixel,
        S ⊆ (validPixels img).toFinset → T ⊆ (validPixels img).toFinset →
        S.card = MAX_PARTICLE_COUNT → T.card = MAX_PARTICLE_COUNT →
        ((Finset.univ : Finset (DrawSeq (validPixels img).length)).filter
            (fun d => ((shuffleArray (toDraws d) (validPixels img)).take
              MAX_PARTICLE_COUNT).toFinset = S)).card
          = ((Finset.univ : Finset (DrawSeq (validPixels img).length)).filter
            (fun d => ((shuffleArray (toDraws d) (validPixels img)).take
              MAX_PARTICLE_COUNT).toFinset = T)).card) := by
  refine ⟨?_, ?_, ?_, ?_⟩
  · intro h
    unfold imageActiveCount
    rw [hK, if_neg (by omega)]
  · intro h
    unfold imageActiveCount
    rw [hK, if_pos (by omega)]
  · intro d
    exact shuffleArray_perm d (validPixels img)
  · intro h S T hS hT hSc hTc
    apply card_drawSeq_take_eq (validPixels img) (validPixels_nodup img hw hh)
      (List.length_pos.mp (by omega)) MAX_PARTICLE_COUNT (by omega) S T hS hT hSc hTc

/-- C1 witness: a 1×1 opaque buffer has exactly one kept pixel and the
generator keeps all of it. -/
theorem C1_pixel_count_and_uniform_subsample_witness :
    imageActiveCount ⟨1, 1, [7, 7, 7, 255]⟩ = 1 :=
  (C1_pixel_count_and_uniform_subsample ⟨1, 1, [7, 7, 7, 255]⟩ 1
    (by decide) (by decide) (by decide)).1 (by decide)

/-! ### Attribute assembler (`src/components/Particles.tsx`) -/

/-- `ColorMode` from `types.ts`. -/
inductive ColorMode
  | MONOCHROME
  | GRADIENT
  | RAINBOW
  | IMAGE
deriving DecidableEq, BEq

/-- A `THREE.Color`: r/g/b channels. -/
structure Color where
  r : ℚ
  g : ℚ
  b : ℚ
deriving DecidableEq

/-- `THREE.Color.lerp(color, alpha)`: each channel moves `alpha` of the way
toward the target (`this.r += (color.r - this.r) * alpha`). -/
def lerpColor (c1 c2 : Color) (t : ℚ) : Color :=
  ⟨c1.r + (c2.r - c1.r) * t, c1.g + (c2.g - c1.g) * t, c1.b + (c2.b - c1.b) * t⟩

/-- `photoCount = Math.min(customParticleTextures.length, 5)` (Particles.tsx
line 182). -/
def photoCountOf (numTextures : ℕ) : ℕ := min numTextures 5

/-- `currentCount = Math.min(baseCount + photoCount, MAX_PARTICLE_COUNT)`
(Particles.tsx line 184). -/
def currentCountOf (baseCount numTextures : ℕ) : ℕ :=
  min (baseCount + photoCountOf numTextures) MAX_PARTICLE_COUNT

/-- `useGeometryColors` (Particles.tsx lines 216-222). -/
def useGeometryColors (hasImageColors : Bool) (shape : String) (mode : ColorMode) : Bool :=
  hasImageColors && (shape == "Flag" || shape == "Tree" || shape == "Image" ||
    shape == "Text" || mode == ColorMode.IMAGE)

/-- `effectiveUseGeometryColors` (Particles.tsx line 223). -/
def effectiveUseGeometryColors (hasImageColors : Bool) (shape : String)
    (mode : ColorMode) : Bool :=
  useGeometryColors hasImageColors shape mode || (shape == "Image" || shape == "Text")

/-- The per-point color of the synthesized branch (Particles.tsx lines
232-243): monochrome = baseColor, rainbow = a random hue (modelled by the
stream `rainbow`), otherwise the gradient lerp keyed by `i / baseCount`. -/
def syntheticColor (mode : ColorMode) (c1 c2 : Color) (baseCount : ℕ)
    (rainbow : ℕ → Color) (i : ℕ) : Color :=
  match mode with
  | ColorMode.MONOCHROME => c1
  | ColorMode.RAINBOW => rainbow i
  | _ => lerpColor c1 c2 ((i : ℚ) / (baseCount : ℚ))

/-- The synthesized color-buffer fill loop (Particles.tsx lines 228-247):
write each of the first `baseCount` point colors into the zeroed
`Float32Array(MAX_PARTICLE_COUNT * 3)`. -/
def syntheticColorBuffer (mode : ColorMode) (c1 c2 : Color) (baseCount : ℕ)
    (rainbow : ℕ → Color) : List ℚ :=
  (List.range baseCount).foldl
    (fun buf i =>
      ((buf.set (i * 3) (syntheticColor mode c1 c2 baseCount rainbow i).r).set
        (i * 3 + 1) (syntheticColor mode c1 c2 baseCount rainbow i).g).set
        (i * 3 + 2) (syntheticColor mode c1 c2 baseCount rainbow i).b)
    (List.replicate (MAX_PARTICLE_COUNT * 3) 0)

/-- Color resolution (Particles.tsx lines 225-248): geometry colors are copied
verbatim (`colors.set(imageColors)`) when in use, otherwise the synthesized
buffer is built. -/
def resolvedColorBuffer (geoColors : Option (List ℚ)) (shape : String)
    (mode : ColorMode) (c1 c2 : Color) (baseCount : ℕ) (rainbow : ℕ → Color) : List ℚ :=
  match geoColors with
  | some gc =>
      if effectiveUseGeometryColors true shape mode then gc
      else syntheticColorBuffer mode c1 c2 baseCount rainbow
  | none => syntheticColorBuffer mode c1 c2 baseCount rainbow

/-- The photo-particle white-color writes (Particles.tsx lines 251-258):
`colors[idx*3 .. idx*3+2] = 1` for `idx = baseCount + i`, `i < photoCount`. -/
def photoWhiteColors (colors : List ℚ) (baseCount photoCount : ℕ) : List ℚ :=
  (List.range photoCount).foldl
    (fun buf i =>
      ((buf.set ((baseCount + i) * 3) 1).set ((baseCount + i) * 3 + 1) 1).set
        ((baseCount + i) * 3 + 2) 1) colors

/-- The photo-particle position writes (Particles.tsx lines 196-211); the
random in-sphere positions are abstracted by `vals` since no claim constrains
their values, only the written slots. -/
def photoPositions (pos : List ℚ) (vals : ℕ → ℚ × ℚ × ℚ) (baseCount photoCount : ℕ) :
    List ℚ :=
  (List.range photoCount).foldl
    (fun buf i =>
      ((buf.set ((baseCount + i) * 3) (vals i).1).set
        ((baseCount + i) * 3 + 1) (vals i).2.1).set
        ((baseCount + i) * 3 + 2) (vals i).2.2) pos

/-- `isPhotoBuffer` (Particles.tsx lines 274, 277-284): zeros, then 1 at each
photo slot. -/
def isPhotoBuffer (baseCount photoCount : ℕ) : List ℚ :=
  (List.range photoCount).foldl (fun buf i => buf.set (baseCount + i) 1)
    (List.replicate MAX_PARTICLE_COUNT 0)

/-- `mixBuffer` (Particles.tsx lines 273, 277-284): the generator returns no
`textureMix`, so the buffer starts as all ones (`fill(1.0)`), then 1 is
written at each photo slot. -/
def mixBufferWithPhoto (baseCount photoCount : ℕ) : List ℚ :=
  (List.range photoCount).foldl (fun buf i => buf.set (baseCount + i) 1)
    (List.replicate MAX_PARTICLE_COUNT 1)

/-- `textureIndexBuffer` (Particles.tsx lines 275, 277-284). -/
def textureIndexBuffer (baseCount photoCount : ℕ) : List ℚ :=
  (List.range photoCount).foldl (fun buf i => buf.set (baseCount + i) (i : ℚ))
    (List.replicate MAX_PARTICLE_COUNT 0)

/-- `sizeBuffer` (Particles.tsx lines 262-269): the generator returns no
`overrideSizes`, so zeros, then 6.0 at each photo slot. -/
def sizeBufferWithPhoto (baseCount photoCount : ℕ) : List ℚ :=
  (List.range photoCount).foldl (fun buf i => buf.set (baseCount + i) (6 : ℚ))
    (List.replicate MAX_PARTICLE_COUNT 0)

/-! ### Generic lemmas about the fold-of-writes loops -/

theorem foldl_setSingle_length {α : Type} (b : ℕ) (v : ℕ → α) :
    ∀ (n : ℕ) (init : List α),
      ((List.range n).foldl (fun buf i => buf.set (b + i) (v i)) init).length
        = init.length := by
  intro n
  induction n with
  | zero => intro init; rfl
  | succ n ih =>
    intro init
    rw [List.range_succ, List.foldl_append]
    simp only [List.foldl_cons, List.foldl_nil, List.length_set]
    exact ih init

theorem foldl_setSingle_getElem? {α : Type} (b : ℕ) (v : ℕ → α) :
    ∀ (n : ℕ) (init : List α) (j : ℕ),
      ((List.range n).foldl (fun buf i => buf.set (b + i) (v i)) init)[j]?
        = if b ≤ j ∧ j < b + n ∧ j < init.length then some (v (j - b)) else init[j]? := by
  intro n
  induction n with
  | zero =>
    intro init j
    rw [if_neg (by omega)]
    rfl
  | succ n ih =>
    intro init j
    rw [List.range_succ, List.foldl_append]
    simp only [List.foldl_cons, List.foldl_nil]
    have hlen := foldl_setSingle_length b v n init
    rw [List.getElem?_set]
    by_cases hj : b + n = j
    · rw [if_pos hj, hlen]
      subst hj
      by_cases hb : b + n < init.length
      · rw [if_pos hb, if_pos (by omega)]
        congr 1
        congr 1
        omega
      · rw [if_neg hb, if_neg (by omega), List.getElem?_eq_none (by omega)]
    · rw [if_neg hj, ih]
      by_cases hc : b ≤ j ∧ j < b + n ∧ j < init.length
      · rw [if_pos hc, if_pos (by omega)]
      · rw [if_neg hc, if_neg (by omega)]

theorem foldl_setSingle_oob {α : Type} (b : ℕ) (v : ℕ → α) :
    ∀ (n : ℕ) (init : List α), init.length ≤ b →
      (List.range n).foldl (fun buf i => buf.set (b + i) (v i)) init = init := by
  intro n
  induction n with
  | zero => intro init _; rfl
  | succ n ih =>
    intro init h
    rw [List.range_succ, List.foldl_append]
    simp only [List.foldl_cons, List.foldl_nil]
    rw [ih init h, List.set_eq_of_length_le (by omega)]

theorem foldl_setTriple_length {α : Type} (ix : ℕ → ℕ) (v1 v2 v3 : ℕ → α) :
    ∀ (n : ℕ) (init : List α),
      ((List.range n).foldl
          (fun buf i => ((buf.set (ix i * 3) (v1 i)).set (ix i * 3 + 1) (v2 i)).set
            (ix i * 3 + 2) (v3 i)) init).length = init.length := by
  intro n
  induction n with
  | zero => intro init; rfl
  | succ n ih =>
    intro init
    rw [List.range_succ, List.foldl_append]
    simp only [List.foldl_cons, List.foldl_nil, List.length_set]
    exact ih init

/-- What the triple-write loops leave at the slots they write, for strictly
increasing slot maps. -/
theorem foldl_setTriple_getElem? {α : Type} (ix : ℕ → ℕ)
    (hix : ∀ a b, a < b → ix a < ix b) (v1 v2 v3 : ℕ → α) :
    ∀ (n : ℕ) (init : List α), (∀ i, i < n → ix i * 3 + 2 < init.length) →
      ∀ j, j < n →
      ((List.range n).foldl
          (fun buf i => ((buf.set (ix i * 3) (v1 i)).set (ix i * 3 + 1) (v2 i)).set
            (ix i * 3 + 2) (v3 i)) init)[ix j * 3]? = some (v1 j) ∧
      ((List.range n).foldl
          (fun buf i => ((buf.set (ix i * 3) (v1 i)).set (ix i * 3 + 1) (v2 i)).set
            (ix i * 3 + 2) (v3 i)) init)[ix j * 3 + 1]? = some (v2 j) ∧
      ((List.range n).foldl
          (fun buf i => ((buf.set (ix i * 3) (v1 i)).set (ix i * 3 + 1) (v2 i)).set
            (ix i * 3 + 2) (v3 i)) init)[ix j * 3 + 2]? = some (v3 j) := by
  intro n
  induction n with
  | zero => intro init _ j hj; omega
  | succ n ih =>
    intro init hbnd j hj
    rw [List.range_succ, List.foldl_append]
    simp only [List.foldl_cons, List.foldl_nil]
    have hlen := foldl_setTriple_length ix v1 v2 v3 n init
    by_cases hjn : j = n
    · subst hjn
      have hb := hbnd j (by omega)
      refine ⟨?_, ?_, ?_⟩
      · rw [List.getElem?_set_ne (by omega), List.getElem?_set_ne (by omega),
          List.getElem?_set_self (by rw [hlen]; omega)]
      · rw [List.getElem?_set_ne (by omega),
          List.getElem?_set_self (by rw [List.length_set, hlen]; omega)]
      · rw [List.getElem?_set_self (by rw [List.length_set, List.length_set, hlen]; omega)]
    · have hjlt : j < n := by omega
      have hlt : ix j < ix n := hix j n hjlt
      obtain ⟨e0, e1, e2⟩ := ih init (fun i hi => hbnd i (by omega)) j hjlt
      refine ⟨?_, ?_, ?_⟩
      · rw [List.getElem?_set_ne (by omega), List.getElem?_set_ne (by omega),
          List.getElem?_set_ne (by omega)]
        exact e0
      · rw [List.getElem?_set_ne (by omega), List.getElem?_set_ne (by omega),
          List.getElem?_set_ne (by omega)]
        exact e1
      · rw [List.getElem?_set_ne (by omega), List.getElem?_set_ne (by omega),
          List.getElem?_set_ne (by omega)]
        exact e2

theorem foldl_setTriple_offset_oob {α : Type} (b : ℕ) (v1 v2 v3 : ℕ → α) :
    ∀ (n : ℕ) (init : List α), init.length ≤ 3 * b →
      (List.range n).foldl
          (fun buf i => ((buf.set ((b + i) * 3) (v1 i)).set ((b + i) * 3 + 1) (v2 i)).set
            ((b + i) * 3 + 2) (v3 i)) init = init := by
  intro n
  induction n with
  | zero => intro init _; rfl
  | succ n ih =>
    intro init h
    rw [List.range_succ, List.foldl_append]
    simp only [List.foldl_cons, List.foldl_nil]
    have h1 : init.set ((b + n) * 3) (v1 n) = init := List.set_eq_of_length_le (by omega)
    rw [ih init h, h1]
    have h2 : init.set ((b + n) * 3 + 1) (v2 n) = init := List.set_eq_of_length_le (by omega)
    rw [h2]
    exact List.set_eq_of_length_le (by omega)

/-- Per-slot version of `foldl_setTriple_getElem?`: the value left at each
written component, requiring only that component itself to lie inside the
buffer — so it also applies when later writes of the loop overflow the
buffer (and are dropped). -/
theorem foldl_setTriple_getElem?_each {α : Type} (ix : ℕ → ℕ)
    (hix : ∀ a b, a < b → ix a < ix b) (v1 v2 v3 : ℕ → α) :
    ∀ (n : ℕ) (init : List α) (j : ℕ), j < n →
      (ix j * 3 < init.length →
        ((List.range n).foldl
          (fun buf i => ((buf.set (ix i * 3) (v1 i)).set (ix i * 3 + 1) (v2 i)).set
            (ix i * 3 + 2) (v3 i)) init)[ix j * 3]? = some (v1 j)) ∧
      (ix j * 3 + 1 < init.length →
        ((List.range n).foldl
          (fun buf i => ((buf.set (ix i * 3) (v1 i)).set (ix i * 3 + 1) (v2 i)).set
            (ix i * 3 + 2) (v3 i)) init)[ix j * 3 + 1]? = some (v2 j)) ∧
      (ix j * 3 + 2 < init.length →
        ((List.range n).foldl
          (fun buf i => ((buf.set (ix i * 3) (v1 i)).set (ix i * 3 + 1) (v2 i)).set
            (ix i * 3 + 2) (v3 i)) init)[ix j * 3 + 2]? = some (v3 j)) := by
  intro n
  induction n with
  | zero => intro init j hj; omega
  | succ n ih =>
    intro init j hj
    rw [List.range_succ, List.foldl_append]
    simp only [List.foldl_cons, List.foldl_nil]
    have hlen := foldl_setTriple_length ix v1 v2 v3 n init
    by_cases hjn : j = n
    · subst hjn
      refine ⟨?_, ?_, ?_⟩
      · intro hb
        rw [List.getElem?_set_ne (by omega), List.getElem?_set_ne (by omega),
          List.getElem?_set_self (by rw [hlen]; omega)]
      · intro hb
        rw [List.getElem?_set_ne (by omega),
          List.getElem?_set_self (by rw [List.length_set, hlen]; omega)]
      · intro hb
        rw [List.getElem?_set_self (by rw [List.length_set, List.length_set, hlen]; omega)]
    · have hjlt : j < n := by omega
      have hlt : ix j < ix n := hix j n hjlt
      obtain ⟨e0, e1, e2⟩ := ih init j hjlt
      refine ⟨?_, ?_, ?_⟩
      · intro hb
        rw [List.getElem?_set_ne (by omega), List.getElem?_set_ne (by omega),
          List.getElem?_set_ne (by omega)]
        exact e0 hb
      · intro hb
        rw [List.getElem?_set_ne (by omega), List.getElem?_set_ne (by omega),
          List.getElem?_set_ne (by omega)]
        exact e1 hb
      · intro hb
        rw [List.getElem?_set_ne (by omega), List.getElem?_set_ne (by omega),
          List.getElem?_set_ne (by omega)]
        exact e2 hb

theorem lerp_mono_aux (a b u v : ℚ) (huv : u ≤ v) :
    (a ≤ b → a + (b - a) * u ≤ a + (b - a) * v) ∧
    (b ≤ a → a + (b - a) * v ≤ a + (b - a) * u) := by
  constructor <;> intro h <;> nlinarith

/-! ### Claim C2 -/

/-- C2 counterexample: with `baseCount = 39998` and `P = 5` photo textures the
drawn count is capped at 40000 and the claimed occupied range
`[39998, 40003)` overflows the buffers: slot 39999 is marked but slot 40000
does not exist in any attribute array (its writes are dropped), so the photo
particles do not occupy `[baseCount, baseCount + P)` and not every appended
slot carries `isPhotoParticle = 1` / white color / eligibility 1. -/
theorem C2_counterexample :
    photoCountOf 5 = 5 ∧
    currentCountOf 39998 5 = min (39998 + 5) MAX_PARTICLE_COUNT ∧
    currentCountOf 39998 5 = MAX_PARTICLE_COUNT ∧
    (isPhotoBuffer 39998 5)[39999]? = some 1 ∧
    (isPhotoBuffer 39998 5)[40000]? = none ∧
    (photoWhiteColors (List.replicate (MAX_PARTICLE_COUNT * 3) 0) 39998 5)[40000 * 3]?
      = none ∧
    (mixBufferWithPhoto 39998 5)[40000]? = none := by
  refine ⟨by decide, by decide, by decide, ?_, ?_, ?_, ?_⟩
  · unfold isPhotoBuffer
    rw [foldl_setSingle_getElem?, List.length_replicate, if_pos (by decide)]
  · unfold isPhotoBuffer
    apply List.getElem?_eq_none
    rw [foldl_setSingle_length, List.length_replicate]
    decide
  · apply List.getElem?_eq_none
    have hlen := foldl_setTriple_length (fun i => (39998 : ℕ) + i)
      (fun _ => (1 : ℚ)) (fun _ => (1 : ℚ)) (fun _ => (1 : ℚ)) 5
      (List.replicate (MAX_PARTICLE_COUNT * 3) 0)
    have hlen2 : (photoWhiteColors (List.replicate (MAX_PARTICLE_COUNT * 3) 0) 39998
        5).length = (List.replicate (MAX_PARTICLE_COUNT * 3) (0 : ℚ)).length := hlen
    rw [hlen2, List.length_replicate]
    decide
  · unfold mixBufferWithPhoto
    apply List.getElem?_eq_none
    rw [foldl_setSingle_length, List.length_replicate]
    decide

/-- Claim C2 (amended): appending `P ≤ 5` photo textures to a base shape of
`baseCount` points draws `min(baseCount + P, 40000)` points; the photo
particles occupy exactly the slots of `[baseCount, baseCount + P)` that lie
below capacity — writes for the part of the range at or beyond 40000 are
dropped — never overlapping the shape's own points; each appended slot below
capacity carries `isPhotoParticle = 1`, white color, texture eligibility 1,
the forced size 6 and its photo's texture index. -/
theorem C2_photo_append_invariant (baseCount numTextures P : ℕ)
    (hP : P = photoCountOf numTextures)
    (hbase : baseCount ≤ MAX_PARTICLE_COUNT)
    (colors : List ℚ) (hclen : colors.length = MAX_PARTICLE_COUNT * 3) :
    P ≤ 5 ∧
    currentCountOf baseCount numTextures = min (baseCount + P) MAX_PARTICLE_COUNT ∧
    (∀ j, j < MAX_PARTICLE_COUNT →
      ((isPhotoBuffer baseCount P)[j]? = some 1 ↔ baseCount ≤ j ∧ j < baseCount + P)) ∧
    (∀ j, j < baseCount → (isPhotoBuffer baseCount P)[j]? = some 0) ∧
    (∀ j, baseCount ≤ j → j < baseCount + P → j < MAX_PARTICLE_COUNT →
      (photoWhiteColors colors baseCount P)[j * 3]? = some 1 ∧
      (photoWhiteColors colors baseCount P)[j * 3 + 1]? = some 1 ∧
      (photoWhiteColors colors baseCount P)[j * 3 + 2]? = some 1 ∧
      (mixBufferWithPhoto baseCount P)[j]? = some 1 ∧
      (sizeBufferWithPhoto baseCount P)[j]? = some 6 ∧
      (textureIndexBuffer baseCount P)[j]? = some ((j - baseCount : ℕ) : ℚ)) ∧
    (∀ j, MAX_PARTICLE_COUNT ≤ j →
      (isPhotoBuffer baseCount P)[j]? = none ∧
      (photoWhiteColors colors baseCount P)[j * 3]? = none) := by
  have hP5 : P ≤ 5 := by rw [hP]; exact min_le_right _ _
  refine ⟨hP5, by rw [hP]; rfl, ?_, ?_, ?_, ?_⟩
  · intro j hj
    unfold isPhotoBuffer
    rw [foldl_setSingle_getElem?, List.length_replicate]
    by_cases hc : baseCount ≤ j ∧ j < baseCount + P
    · rw [if_pos ⟨hc.1, hc.2, hj⟩]
      simp [hc.1, hc.2]
    · rw [if_neg (by tauto), List.getElem?_replicate, if_pos hj]
      constructor
      · intro h
        exact absurd (Option.some.inj h) (by norm_num)
      · intro h
        exact absurd h hc
  · intro j hj
    unfold isPhotoBuffer
    rw [foldl_setSingle_getElem?, List.length_replicate, if_neg (by omega),
      List.getElem?_replicate, if_pos (by omega)]
  · intro j h1 h2 h3
    have hji : j - baseCount < P := by omega
    have hje : baseCount + (j - baseCount) = j := by omega
    obtain ⟨w0, w1, w2⟩ := foldl_setTriple_getElem?_each (fun i => baseCount + i)
      (fun a b h => by show baseCount + a < baseCount + b; omega)
      (fun _ => (1 : ℚ)) (fun _ => (1 : ℚ)) (fun _ => (1 : ℚ))
      P colors (j - baseCount) hji
    rw [hje] at w0 w1 w2
    have hsingle : ∀ (v : ℕ → ℚ) (init : List ℚ), init.length = MAX_PARTICLE_COUNT →
        ((List.range P).foldl (fun buf i => buf.set (baseCount + i) (v i)) init)[j]?
          = some (v (j - baseCount)) := by
      intro v init hinit
      rw [foldl_setSingle_getElem?, if_pos ⟨h1, h2, by omega⟩]
    refine ⟨w0 (by rw [hclen]; omega), w1 (by rw [hclen]; omega),
      w2 (by rw [hclen]; omega), ?_, ?_, ?_⟩
    · exact hsingle (fun _ => 1) _ (List.length_replicate _ _)
    · exact hsingle (fun _ => 6) _ (List.length_replicate _ _)
    · exact hsingle (fun i => (i : ℚ)) _ (List.length_replicate _ _)
  · intro j hj
    constructor
    · unfold isPhotoBuffer
      apply List.getElem?_eq_none
      rw [foldl_setSingle_length, List.length_replicate]
      exact hj
    · apply List.getElem?_eq_none
      have hlen : (photoWhiteColors colors baseCount P).length = colors.length :=
        foldl_setTriple_length (fun i => baseCount + i)
          (fun _ => (1 : ℚ)) (fun _ => (1 : ℚ)) (fun _ => (1 : ℚ)) P colors
      rw [hlen, hclen]
      omega

/-- C2 witness: two photos on a three-point base. -/
theorem C2_photo_append_invariant_witness :
    currentCountOf 3 2 = min (3 + 2) MAX_PARTICLE_COUNT ∧
    (isPhotoBuffer 3 2)[3]? = some 1 ∧ (isPhotoBuffer 3 2)[0]? = some 0 := by
  have h := C2_photo_append_invariant 3 2 2 (by decide) (by decide)
    (List.replicate (MAX_PARTICLE_COUNT * 3) 0) (List.length_replicate _ _)
  exact ⟨h.2.1, ((h.2.2.1 3 (by decide)).mpr (by omega)), h.2.2.2.1 0 (by omega)⟩

/-! ### Claim C10 -/

/-- Claim C10: when the base shape already fills the whole capacity
(`baseCount = 40000`) and at least one photo texture is supplied, all
photo-particle attribute writes target slots at or beyond capacity and are
dropped: the drawn count stays 40000, no slot is marked `isPhotoParticle`, and
the color/position/mix/size/texture-index buffers are left untouched. -/
theorem C10_photos_dropped_at_capacity (numTextures P : ℕ)
    (hP : P = photoCountOf numTextures) (hone : 1 ≤ P)
    (colors pos : List ℚ) (hclen : colors.length = MAX_PARTICLE_COUNT * 3)
    (hplen : pos.length = MAX_PARTICLE_COUNT * 3) (vals : ℕ → ℚ × ℚ × ℚ) :
    currentCountOf MAX_PARTICLE_COUNT numTextures = MAX_PARTICLE_COUNT ∧
    isPhotoBuffer MAX_PARTICLE_COUNT P = List.replicate MAX_PARTICLE_COUNT 0 ∧
    (∀ j, j < MAX_PARTICLE_COUNT → (isPhotoBuffer MAX_PARTICLE_COUNT P)[j]? = some 0) ∧
    photoWhiteColors colors MAX_PARTICLE_COUNT P = colors ∧
    photoPositions pos vals MAX_PARTICLE_COUNT P = pos ∧
    mixBufferWithPhoto MAX_PARTICLE_COUNT P = List.replicate MAX_PARTICLE_COUNT 1 ∧
    sizeBufferWithPhoto MAX_PARTICLE_COUNT P = List.replicate MAX_PARTICLE_COUNT 0 ∧
    textureIndexBuffer MAX_PARTICLE_COUNT P = List.replicate MAX_PARTICLE_COUNT 0 := by
  have hzero : isPhotoBuffer MAX_PARTICLE_COUNT P = List.replicate MAX_PARTICLE_COUNT 0 :=
    foldl_setSingle_oob MAX_PARTICLE_COUNT _ P _ (by rw [List.length_replicate])
  refine ⟨?_, hzero, ?_, ?_, ?_, ?_, ?_, ?_⟩
  · show min (MAX_PARTICLE_COUNT + photoCountOf numTextures) MAX_PARTICLE_COUNT
      = MAX_PARTICLE_COUNT
    exact min_eq_right (Nat.le_add_right _ _)
  · intro j hj
    rw [hzero, List.getElem?_replicate, if_pos hj]
  · exact foldl_setTriple_offset_oob MAX_PARTICLE_COUNT _ _ _ P colors (by omega)
  · exact foldl_setTriple_offset_oob MAX_PARTICLE_COUNT _ _ _ P pos (by omega)
  · exact foldl_setSingle_oob MAX_PARTICLE_COUNT _ P _ (by rw [List.length_replicate])
  · exact foldl_setSingle_oob MAX_PARTICLE_COUNT _ P _ (by rw [List.length_replicate])
  · exact foldl_setSingle_oob MAX_PARTICLE_COUNT _ P _ (by rw [List.length_replicate])

/-- C10 witness: one photo on a full-capacity base. -/
theorem C10_photos_dropped_at_capacity_witness :
    currentCountOf MAX_PARTICLE_COUNT 1 = MAX_PARTICLE_COUNT ∧
    isPhotoBuffer MAX_PARTICLE_COUNT 1 = List.replicate MAX_PARTICLE_COUNT 0 := by
  have h := C10_photos_dropped_at_capacity 1 1 (by decide) (by decide)
    (List.replicate (MAX_PARTICLE_COUNT * 3) 0) (List.replicate (MAX_PARTICLE_COUNT * 3) 0)
    (List.length_replicate _ _) (List.length_replicate _ _) (fun _ => (0, 0, 0))
  exact ⟨h.1, h.2.1⟩

/-! ### Claim C5 -/

/-- Claim C5: with `colorMode = Gradient` and no geometry-supplied colors in
use, the assembled per-point colors are a deterministic function of
`(baseColor, secondaryColor, baseCount)` (independent of the random stream):
point 0 equals `baseColor` exactly, each point `i` carries the lerp keyed by
`i / baseCount`, point `baseCount - 1` misses `secondaryColor` by exactly
`|secondary - base| / baseCount` per channel, and every channel varies
monotonically with the point index. -/
theorem C5_gradient_colors (shape : String) (geoColors : Option (List ℚ))
    (c1 c2 : Color) (baseCount : ℕ) (hpos : 0 < baseCount)
    (hbmax : baseCount ≤ MAX_PARTICLE_COUNT) (rainbow1 rainbow2 : ℕ → Color)
    (hgeo : geoColors = none ∨
      effectiveUseGeometryColors true shape ColorMode.GRADIENT = false) :
    resolvedColorBuffer geoColors shape ColorMode.GRADIENT c1 c2 baseCount rainbow1
      = resolvedColorBuffer geoColors shape ColorMode.GRADIENT c1 c2 baseCount rainbow2 ∧
    (∀ i, i < baseCount →
      (resolvedColorBuffer geoColors shape ColorMode.GRADIENT c1 c2 baseCount
        rainbow1)[i * 3]? = some (c1.r + (c2.r - c1.r) * ((i : ℚ) / (baseCount : ℚ))) ∧
      (resolvedColorBuffer geoColors shape ColorMode.GRADIENT c1 c2 baseCount
        rainbow1)[i * 3 + 1]? = some (c1.g + (c2.g - c1.g) * ((i : ℚ) / (baseCount : ℚ))) ∧
      (resolvedColorBuffer geoColors shape ColorMode.GRADIENT c1 c2 baseCount
        rainbow1)[i * 3 + 2]? = some (c1.b + (c2.b - c1.b) * ((i : ℚ) / (baseCount : ℚ)))) ∧
    ((resolvedColorBuffer geoColors shape ColorMode.GRADIENT c1 c2 baseCount
        rainbow1)[0]? = some c1.r ∧
      (resolvedColorBuffer geoColors shape ColorMode.GRADIENT c1 c2 baseCount
        rainbow1)[1]? = some c1.g ∧
      (resolvedColorBuffer geoColors shape ColorMode.GRADIENT c1 c2 baseCount
        rainbow1)[2]? = some c1.b) ∧
    (|c1.r + (c2.r - c1.r) * (((baseCount - 1 : ℕ) : ℚ) / (baseCount : ℚ)) - c2.r|
        = |c2.r - c1.r| / (baseCount : ℚ) ∧
      |c1.g + (c2.g - c1.g) * (((baseCount - 1 : ℕ) : ℚ) / (baseCount : ℚ)) - c2.g|
        = |c2.g - c1.g| / (baseCount : ℚ) ∧
      |c1.b + (c2.b - c1.b) * (((baseCount - 1 : ℕ) : ℚ) / (baseCount : ℚ)) - c2.b|
        = |c2.b - c1.b| / (baseCount : ℚ)) ∧
    (∀ i j, i ≤ j → j < baseCount →
      ((c1.r ≤ c2.r →
          c1.r + (c2.r - c1.r) * ((i : ℚ) / (baseCount : ℚ))
            ≤ c1.r + (c2.r - c1.r) * ((j : ℚ) / (baseCount : ℚ))) ∧
        (c2.r ≤ c1.r →
          c1.r + (c2.r - c1.r) * ((j : ℚ) / (baseCount : ℚ))
            ≤ c1.r + (c2.r - c1.r) * ((i : ℚ) / (baseCount : ℚ)))) ∧
      ((c1.g ≤ c2.g →
          c1.g + (c2.g - c1.g) * ((i : ℚ) / (baseCount : ℚ))
            ≤ c1.g + (c2.g - c1.g) * ((j : ℚ) / (baseCount : ℚ))) ∧
        (c2.g ≤ c1.g →
          c1.g + (c2.g - c1.g) * ((j : ℚ) / (baseCount : ℚ))
            ≤ c1.g + (c2.g - c1.g) * ((i : ℚ) / (baseCount : ℚ)))) ∧
      ((c1.b ≤ c2.b →
          c1.b + (c2.b - c1.b) * ((i : ℚ) / (baseCount : ℚ))
            ≤ c1.b + (c2.b - c1.b) * ((j : ℚ) / (baseCount : ℚ))) ∧
        (c2.b ≤ c1.b →
          c1.b + (c2.b - c1.b) * ((j : ℚ) / (baseCount : ℚ))
            ≤ c1.b + (c2.b - c1.b) * ((i : ℚ) / (baseCount : ℚ))))) := by
  have hnQ : (0 : ℚ) < (baseCount : ℚ) := by exact_mod_cast hpos
  have hred : ∀ rb : ℕ → Color,
      resolvedColorBuffer geoColors shape ColorMode.GRADIENT c1 c2 baseCount rb
        = syntheticColorBuffer ColorMode.GRADIENT c1 c2 baseCount rb := by
    intro rb
    rcases hgeo with h | h
    · rw [h]
      rfl
    · cases geoColors with
      | none => rfl
      | some gc => simp [resolvedColorBuffer, h]
  have hpoint : ∀ (rb : ℕ → Color) i, i < baseCount →
      (syntheticColorBuffer ColorMode.GRADIENT c1 c2 baseCount rb)[i * 3]?
          = some (c1.r + (c2.r - c1.r) * ((i : ℚ) / (baseCount : ℚ))) ∧
      (syntheticColorBuffer ColorMode.GRADIENT c1 c2 baseCount rb)[i * 3 + 1]?
          = some (c1.g + (c2.g - c1.g) * ((i : ℚ) / (baseCount : ℚ))) ∧
      (syntheticColorBuffer ColorMode.GRADIENT c1 c2 baseCount rb)[i * 3 + 2]?
          = some (c1.b + (c2.b - c1.b) * ((i : ℚ) / (baseCount : ℚ))) := by
    intro rb i hi
    exact foldl_setTriple_getElem? (fun i => i) (fun a b h => h)
      (fun i => (syntheticColor ColorMode.GRADIENT c1 c2 baseCount rb i).r)
      (fun i => (syntheticColor ColorMode.GRADIENT c1 c2 baseCount rb i).g)
      (fun i => (syntheticColor ColorMode.GRADIENT c1 c2 baseCount rb i).b)
      baseCount (List.replicate (MAX_PARTICLE_COUNT * 3) 0)
      (fun k hk => by
        show k * 3 + 2 < (List.replicate (MAX_PARTICLE_COUNT * 3) (0 : ℚ)).length
        rw [List.length_replicate]; omega) i hi
  refine ⟨?_, ?_, ?_, ?_, ?_⟩
  · rw [hred rainbow1, hred rainbow2]
    rfl
  · intro i hi

    rw [hred rainbow1]
    exact hpoint rainbow1 i hi
  · have h0 := hpoint rainbow1 0 hpos
    rw [hred rainbow1]
    refine ⟨?_, ?_, ?_⟩
    · have := h0.1
      simpa using this
    · have := h0.2.1
      simpa using this
    · have := h0.2.2
      simpa using this
  · have hcast : ((baseCount - 1 : ℕ) : ℚ) = (baseCount : ℚ) - 1 :=
      Nat.cast_sub (by omega)
    have hne : (baseCount : ℚ) ≠ 0 := ne_of_gt hnQ
    refine ⟨?_, ?_, ?_⟩ <;>
    · rw [hcast, show ∀ a b : ℚ, a + (b - a) * (((baseCount : ℚ) - 1) / (baseCount : ℚ)) - b
          = (a - b) / (baseCount : ℚ) from fun a b => by field_simp; ring]
      rw [abs_div, abs_of_pos hnQ, abs_sub_comm]
  · intro i j hij hj
    have hdiv : (i : ℚ) / (baseCount : ℚ) ≤ (j : ℚ) / (baseCount : ℚ) := by
      apply div_le_div_of_nonneg_right ?_ hnQ.le
      exact_mod_cast hij
    exact ⟨lerp_mono_aux c1.r c2.r _ _ hdiv, lerp_mono_aux c1.g c2.g _ _ hdiv,
      lerp_mono_aux c1.b c2.b _ _ hdiv⟩

/-- C5 witness: a four-point gradient from red to blue, two distinct rainbow
streams. -/
theorem C5_gradient_colors_witness :
    resolvedColorBuffer none "Heart" ColorMode.GRADIENT ⟨1, 0, 0⟩ ⟨0, 0, 1⟩ 4
        (fun _ => ⟨0, 0, 0⟩)
      = resolvedColorBuffer none "Heart" ColorMode.GRADIENT ⟨1, 0, 0⟩ ⟨0, 0, 1⟩ 4
        (fun _ => ⟨1, 1, 1⟩) ∧
    (resolvedColorBuffer none "Heart" ColorMode.GRADIENT ⟨1, 0, 0⟩ ⟨0, 0, 1⟩ 4
        (fun _ => ⟨0, 0, 0⟩))[0]? = some 1 := by
  have h := C5_gradient_colors "Heart" none ⟨1, 0, 0⟩ ⟨0, 0, 1⟩ 4 (by decide) (by decide)
    (fun _ => ⟨0, 0, 0⟩) (fun _ => ⟨1, 1, 1⟩) (Or.inl rfl)
  exact ⟨h.1, h.2.2.1.1⟩

/-! ### Gesture smoothing (Particles.tsx lines 343-347, WebcamHandler.tsx
lines 171-179) -/

/-- `THREE.MathUtils.lerp(x, y, t) = x + (y - x) * t`, used by the render loop
for `uExpansion` and the mesh scale. -/
def mathLerp (x y t : ℚ) : ℚ := x + (y - x) * t

/-- The per-frame blend factor `0.1` of the render loop (Particles.tsx line
346). -/
def expansionBlendFactor : ℚ := 1/10

/-- The per-update blend factor `alpha = 0.3` of the gesture source
(WebcamHandler.tsx line 172). -/
def gestureBlendFactor : ℚ := 3/10

/-- One smoothing update.  Both smoothing sites compute
`prev + (raw - prev) * α`: the render loop as
`THREE.MathUtils.lerp(current, gesture.expansion, 0.1)`, the gesture source as
`prevRotation.current + (rotation - prevRotation.current) * alpha` (and
likewise for zoom and expansion). -/
def smoothStep (α target x : ℚ) : ℚ := x + (target - x) * α

theorem mathLerp_eq_smoothStep (x y t : ℚ) : mathLerp x y t = smoothStep t y x := rfl

/-- The smoothed value after `k` updates with a constant raw signal `target`,
starting from `x0`. -/
def smoothSeq (α target x0 : ℚ) : ℕ → ℚ
  | 0 => x0
  | k + 1 => smoothStep α target (smoothSeq α target x0 k)

theorem smoothSeq_error (α target x0 : ℚ) :
    ∀ k, smoothSeq α target x0 k - target = (1 - α) ^ k * (x0 - target) := by
  intro k
  induction k with
  | zero => simp [smoothSeq]
  | succ k ih =>
    show smoothStep α target (smoothSeq α target x0 k) - target = _
    have heq : smoothStep α target (smoothSeq α target x0 k) - target
        = (smoothSeq α target x0 k - target) * (1 - α) := by
      unfold smoothStep
      ring
    rw [heq, ih, pow_succ]
    ring

/-! ### Claim C8 -/

/-- Claim C8: for both blend factors used by the code (0.1 per frame in the
render loop, 0.3 per update in the gesture source), after a step change of the
raw signal to a constant target the smoothed value decays geometrically toward
the target, stays between its start and the target (never overshooting), moves
monotonically toward the target, and gets within any tolerance `ε > 0` after a
bounded number of frames. -/
theorem C8_gesture_smoothing (α target x0 : ℚ)
    (hα : α = expansionBlendFactor ∨ α = gestureBlendFactor) :
    (∀ k, smoothSeq α target x0 k - target = (1 - α) ^ k * (x0 - target)) ∧
    (∀ k, min x0 target ≤ smoothSeq α target x0 k ∧
      smoothSeq α target x0 k ≤ max x0 target) ∧
    (∀ k, (x0 ≤ target → smoothSeq α target x0 k ≤ smoothSeq α target x0 (k + 1)) ∧
      (target ≤ x0 → smoothSeq α target x0 (k + 1) ≤ smoothSeq α target x0 k)) ∧
    (∀ ε : ℚ, 0 < ε → ∃ N, ∀ k, N ≤ k → |smoothSeq α target x0 k - target| ≤ ε) := by
  have hα01 : 0 < α ∧ α < 1 := by
    rcases hα with h | h <;> rw [h] <;> constructor <;>
      norm_num [expansionBlendFactor, gestureBlendFactor]
  have hβ0 : (0 : ℚ) ≤ 1 - α := by linarith [hα01.2]
  have hβ1 : 1 - α < 1 := by linarith [hα01.1]
  have herr := smoothSeq_error α target x0
  have hpow : ∀ k, 0 ≤ (1 - α) ^ k ∧ (1 - α) ^ k ≤ 1 :=
    fun k => ⟨pow_nonneg hβ0 k, pow_le_one₀ hβ0 (by linarith)⟩
  refine ⟨herr, ?_, ?_, ?_⟩
  · intro k
    have hf := herr k
    obtain ⟨hp0, hp1⟩ := hpow k
    rcases le_total x0 target with hxt | hxt
    · rw [min_eq_left hxt, max_eq_right hxt]
      constructor <;> nlinarith
    · rw [min_eq_right hxt, max_eq_left hxt]
      constructor <;> nlinarith
  · intro k
    have hf := herr k
    have hf1 := herr (k + 1)
    obtain ⟨hp0, hp1⟩ := hpow k
    rw [pow_succ] at hf1
    have hdiff : smoothSeq α target x0 (k + 1) - smoothSeq α target x0 k
        = α * ((1 - α) ^ k * (target - x0)) := by
      linear_combination hf1 - hf
    constructor <;> intro h
    · have h2 : 0 ≤ α * ((1 - α) ^ k * (target - x0)) :=
        mul_nonneg hα01.1.le (mul_nonneg hp0 (by linarith))
      linarith [hdiff, h2]
    · have h2 : α * ((1 - α) ^ k * (target - x0)) ≤ 0 :=
        mul_nonpos_of_nonneg_of_nonpos hα01.1.le
          (mul_nonpos_of_nonneg_of_nonpos hp0 (by linarith))
      linarith [hdiff, h2]
  · intro ε hε
    set D := |x0 - target| with hD
    have hD0 : 0 ≤ D := abs_nonneg _
    obtain ⟨N, hN⟩ := exists_pow_lt_of_lt_one
      (div_pos hε (by linarith : (0 : ℚ) < D + 1)) hβ1
    refine ⟨N, fun k hk => ?_⟩
    rw [herr k, abs_mul, abs_pow, abs_of_nonneg hβ0]
    calc (1 - α) ^ k * D ≤ (1 - α) ^ N * D :=
          mul_le_mul_of_nonneg_right (pow_le_pow_of_le_one hβ0 (by linarith) hk) hD0
      _ ≤ ε / (D + 1) * D := mul_le_mul_of_nonneg_right hN.le hD0
      _ ≤ ε := by
          rw [div_mul_eq_mul_div, div_le_iff₀ (by linarith)]
          nlinarith

/-- C8 witness: the render-loop factor 0.1 with a unit step. -/
theorem C8_gesture_smoothing_witness :
    smoothSeq expansionBlendFactor 1 0 1 - 1
      = (1 - expansionBlendFactor) ^ 1 * (0 - 1) ∧
    ∃ N, ∀ k, N ≤ k → |smoothSeq expansionBlendFactor 1 0 k - 1| ≤ 1/2 := by
  have h := C8_gesture_smoothing expansionBlendFactor 1 0 (Or.inl rfl)
  exact ⟨h.1 1, h.2.2.2 (1/2) (by norm_num)⟩

/-! ### Procedural shapes (geometry.ts lines 10-48 and 129-504), over `ℝ`
because of the transcendental functions involved.  Each loop iteration gets a
fresh positionally-indexed random stream `rnd`; `Math.cbrt x` is `x ^ (1/3)`
and `Math.pow x e` is `x ^ e` (real exponentation, matching the JS calls on
the nonnegative arguments that occur). -/

noncomputable section

/-- `randomInSphere` without a center (geometry.ts lines 11-25): spherical
sampling with `r = cbrt(random) * radius`. -/
def randomInSphere (radius u v w : ℝ) : ℝ × ℝ × ℝ :=
  let theta := 2 * Real.pi * u
  let phi := Real.arccos (2 * v - 1)
  let r := w ^ ((1 : ℝ)/3) * radius
  let sinPhi := Real.sin phi
  (r * sinPhi * Real.cos theta, r * sinPhi * Real.sin theta, r * Real.cos phi)

/-- `randomInSphere` with a center offset (geometry.ts line 23). -/
def randomInSphereC (radius : ℝ) (center : ℝ × ℝ × ℝ) (u v w : ℝ) : ℝ × ℝ × ℝ :=
  let p := randomInSphere radius u v w
  (p.1 + center.1, p.2.1 + center.2.1, p.2.2 + center.2.2)

/-- The `y` value of one rejection-sampling attempt of `getLanternPoint`
(geometry.ts lines 28-45) as a function of the three draws of that attempt. -/
def lanternSampleY (u v w : ℝ) : ℝ :=
  let theta := 2 * Real.pi * u
  let phi := Real.pi * (v - 0.5)
  let ridges := 1.0 + 0.1 * Real.sin (theta * 8)
  let r := 4 * ridges * Real.sqrt w
  r * Real.sin phi * 1.3

/-- `getLanternPoint` (geometry.ts lines 28-48).  The source recurses with no
retry cap (`if (Math.abs(y) > 4.5) return getLanternPoint();`); the recursion
is modelled with an explicit attempt budget `fuel`, `none` meaning the budget
was exhausted with every attempt rejected.  Each attempt consumes the three
draws at `start`, `start+1`, `start+2` and returns the next unused stream
index alongside the point. -/
def getLanternPointAux (rnd : ℕ → ℝ) : ℕ → ℕ → Option ((ℝ × ℝ × ℝ) × ℕ)
  | 0, _ => none
  | fuel + 1, start =>
    let u := rnd start
    let v := rnd (start + 1)
    let theta := 2 * Real.pi * u
    let phi := Real.pi * (v - 0.5)
    let ridges := 1.0 + 0.1 * Real.sin (theta * 8)
    let r := 4 * ridges * Real.sqrt (rnd (start + 2))
    let x := r * Real.cos phi * Real.cos theta
    let z := r * Real.cos phi * Real.sin theta
    let y := r * Real.sin phi * 1.3
    if |y| > 4.5 then getLanternPointAux rnd fuel (start + 3)
    else some ((x, y, z), start + 3)

/-- `getLanternPoint()` as called by the LANTERN case, with attempt budget
`fuel`. -/
def getLanternPoint (fuel : ℕ) (rnd : ℕ → ℝ) : Option (ℝ × ℝ × ℝ) :=
  (getLanternPointAux rnd fuel 0).map Prod.fst

/-- Attempt `k` of the lantern rejection loop accepts. -/
def lanternAccepts (rnd : ℕ → ℝ) (k : ℕ) : Prop :=
  |lanternSampleY (rnd (3 * k)) (rnd (3 * k + 1)) (rnd (3 * k + 2))| ≤ 4.5

/-- The 21 shape identifiers carried by a `case` label of the `switch` in
`generateShapePositions` (geometry.ts lines 140-495), i.e. the runtime strings
of the `ShapeType` enum. -/
def mappedShapeIds : List String :=
  ["Sphere", "Image", "Text", "Heart", "Rose", "Flower", "Saturn", "Buddha", "DNA",
   "Spiral", "Fireworks", "Tree", "Snowflake", "Pumpkin", "Lantern", "Zongzi", "Egg",
   "Rabbit", "Snake", "Bridge", "Flag"]

/-- One iteration of the procedural loop of `generateShapePositions`
(geometry.ts lines 136-501): the position written for point `i` of
`activeCount`, as a function of the iteration's random draws.  `x`, `y`, `z`
start at 0 and a shape identifier matching no `case` leaves them unchanged
(the switch has no default case).  Only the LANTERN case can fail to produce
a point (rejection recursion modelled by `fuel`). -/
def proceduralPoint (ty : String) (i activeCount : ℕ) (rnd : ℕ → ℝ) (fuel : ℕ) :
    Option (ℝ × ℝ × ℝ) :=
  if ty = "Sphere" ∨ ty = "Image" ∨ ty = "Text" then
    some (randomInSphere 5 (rnd 0) (rnd 1) (rnd 2))
  else if ty = "Heart" then
    let t := rnd 0 * Real.pi * 2
    let r := Real.sqrt (rnd 1)
    let x := (16 * Real.sin t ^ 3) * (r * 0.25)
    let y := (13 * Real.cos t - 5 * Real.cos (2 * t) - 2 * Real.cos (3 * t)
      - Real.cos (4 * t)) * (r * 0.25)
    let z := (rnd 2 - 0.5) * 3 * r
    some (x, y, z)
  else if ty = "Rose" then
    let theta := rnd 0 * Real.pi * 2
    let phi := Real.arccos (2 * rnd 1 - 1)
    let petal := 1 + 0.3 * Real.sin (3 * theta) * Real.sin (phi * 4)
    let r := rnd 2 ^ ((1 : ℝ)/3) * 4 * petal
    let x := r * Real.sin phi * Real.cos theta
    let z := r * Real.sin phi * Real.sin theta
    let y := r * Real.cos phi * 0.8
    some (x, if y < -1 then y * 0.5 else y, z)
  else if ty = "Flower" then
    let u := rnd 0 * Real.pi * 2
    let rBase := 4 * Real.cos (4 * u) + 1
    let bigR := rBase * rnd 1
    let x := bigR * Real.cos u
    let y := bigR * Real.sin u
    let z := (rnd 2 - 0.5) * 2 + (x * x + y * y) ^ ((0.5 : ℝ)) * 0.3
    some (x, y, z)
  else if ty = "Saturn" then
    let base :=
      if rnd 0 > 0.4 then
        let angle := rnd 1 * Real.pi * 2
        let dist := 6 + rnd 2 * 3
        (Real.cos angle * dist, (rnd 3 - 0.5) * 0.2, Real.sin angle * dist)
      else randomInSphere 3.5 (rnd 1) (rnd 2) (rnd 3)
    let tilt := Real.pi / 6
    let ty2 := base.2.1 * Real.cos tilt - base.2.2 * Real.sin tilt
    let tz := base.2.1 * Real.sin tilt + base.2.2 * Real.cos tilt
    some (base.1, ty2, tz)
  else if ty = "Buddha" then
    let r := rnd 0
    if r < 0.4 then
      let p := randomInSphere 3.0 (rnd 1) (rnd 2) (rnd 3)
      let py := p.2.1 * 0.4 - 2.0
      some (p.1, if py < -2.5 then -2.5 else py, p.2.2)
    else if r < 0.75 then
      let p := randomInSphere 2.0 (rnd 1) (rnd 2) (rnd 3)
      let py := (rnd 4 - 0.5) * 3.0
      let px := p.1 * (0.8 * (1 - (py + 1.5) / 5))
      let pz := p.2.2 * 0.7
      some (px, py - 0.5, pz)
    else
      let p := randomInSphere 1.2 (rnd 1) (rnd 2) (rnd 3)
      some (p.1, p.2.1 + 1.8, p.2.2)
  else if ty = "DNA" then
    let t := ((i : ℝ) / (activeCount : ℝ)) * Real.pi * 30
    let yPos := ((i : ℝ) / (activeCount : ℝ) - 0.5) * 12
    let strandOffset := if i % 2 = 0 then (0 : ℝ) else Real.pi
    let x := Real.cos (t + strandOffset) * 2.5
    let z := Real.sin (t + strandOffset) * 2.5
    some (x + (rnd 0 - 0.5) * 0.2, yPos + (rnd 1 - 0.5) * 0.2, z + (rnd 2 - 0.5) * 0.2)
  else if ty = "Spiral" then
    let armIndex := i % 3
    let t := rnd 0
    let angleOffset := ((armIndex : ℝ) / 3) * Real.pi * 2
    let rotation := t * Real.pi * 5
    let dist := t * 8
    let x := Real.cos (rotation + angleOffset) * dist
    let z := Real.sin (rotation + angleOffset) * dist
    let thickness := max 0.2 (1.5 * (1 - t))
    some (x + (rnd 2 - 0.5) * 0.3, (rnd 1 - 0.5) * thickness, z + (rnd 3 - 0.5) * 0.3)
  else if ty = "Fireworks" then
    let p := randomInSphere 1 (rnd 0) (rnd 1) (rnd 2)
    let dist := 1 + rnd 3 ^ ((0.3 : ℝ)) * 9
    some (p.1 * dist, p.2.1 * dist, p.2.2 * dist)
  else if ty = "Tree" then
    let t := (i : ℝ) / (activeCount : ℝ)
    let angle := 16 * t * Real.pi * 2
    let y := (0.5 - t) * 13
    let rOffset := t * 5.5 * (0.8 + 0.2 * rnd 0)
    some (Real.cos angle * rOffset + (rnd 1 - 0.5) * 0.5,
      y + (rnd 3 - 0.5) * 0.5,
      Real.sin angle * rOffset + (rnd 2 - 0.5) * 0.5)
  else if ty = "Snowflake" then
    let branchIndex := i % 6
    let angle := ((branchIndex : ℝ) / 6) * Real.pi * 2
    let t := rnd 0
    let dist := t ^ ((0.7 : ℝ)) * 7
    let x := Real.cos angle * dist
    let y := Real.sin angle * dist
    let z := (rnd 1 - 0.5) * 0.5
    if rnd 2 > 0.4 then
      let side := if rnd 3 > 0.5 then (1 : ℝ) else -1
      let x2 := x + Real.cos (angle + side * (Real.pi / 3)) * rnd 4 * ((1.0 - t) * 2.0)
      let y2 := y + Real.sin (angle + side * (Real.pi / 3)) * rnd 5 * ((1.0 - t) * 2.0)
      some (x2 + (rnd 6 - 0.5) * 0.2, y2 + (rnd 7 - 0.5) * 0.2, z)
    else
      some (x + (rnd 3 - 0.5) * 0.2, y + (rnd 4 - 0.5) * 0.2, z)
  else if ty = "Pumpkin" then
    let theta := 2 * Real.pi * rnd 0
    let phi := Real.arccos (2 * rnd 1 - 1)
    let ridges := 1 + 0.15 * Real.cos (8 * theta)
    let r := rnd 2 ^ ((1 : ℝ)/3) * 5 * ridges
    let x := r * Real.sin phi * Real.cos theta
    let z := r * Real.sin phi * Real.sin theta
    let y := r * Real.cos phi * 0.75
    if rnd 3 > 0.96 ∧ y > 2.5 then some (x * 0.1, y + 1.5 * rnd 4, z * 0.1)
    else some (x, y, z)
  else if ty = "Lantern" then
    match getLanternPointAux rnd fuel 0 with
    | none => none
    | some (p, nxt) =>
      if rnd nxt > 0.92 then
        let y2 := -4.5 - rnd (nxt + 1) * 3.5
        let x2 := p.1 * 0.15
        let z2 := p.2.2 * 0.15
        if rnd (nxt + 2) > 0.985 then
          some (x2 * 0.05, 4.5 + rnd (nxt + 3) * 2.5, z2 * 0.05)
        else some (x2, y2, z2)
      else
        if rnd (nxt + 1) > 0.985 then
          some (p.1 * 0.05, 4.5 + rnd (nxt + 2) * 2.5, p.2.2 * 0.05)
        else some p
  else if ty = "Zongzi" then
    let w1 := rnd 0
    let w2 := rnd 1
    let w3 := rnd 2
    let w4 := rnd 3
    let s := w1 + w2 + w3 + w4
    let x := 5 * (w1 / s) + 5 * (w2 / s) + -5 * (w3 / s) + -5 * (w4 / s)
    let y := 5 * (w1 / s) + -5 * (w2 / s) + 5 * (w3 / s) + -5 * (w4 / s)
    let z := 5 * (w1 / s) + -5 * (w2 / s) + -5 * (w3 / s) + 5 * (w4 / s)
    some (x + (rnd 4 - 0.5) * 0.15, y + (rnd 5 - 0.5) * 0.15, z + (rnd 6 - 0.5) * 0.15)
  else if ty = "Egg" then
    let theta := 2 * Real.pi * rnd 0
    let phi := Real.arccos (2 * rnd 1 - 1)
    let r := rnd 2 ^ ((1 : ℝ)/3) * 4.5
    let x := r * Real.sin phi * Real.cos theta
    let z := r * Real.sin phi * Real.sin theta
    let yRaw := Real.cos phi
    some (x, r * (if yRaw > 0 then yRaw * 1.35 else yRaw), z)
  else if ty = "Rabbit" then
    let r := rnd 0
    if r < 0.4 then some (randomInSphereC 2.5 (0, -1, 0) (rnd 1) (rnd 2) (rnd 3))
    else if r < 0.65 then some (randomInSphereC 1.6 (0, 2.5, 0.5) (rnd 1) (rnd 2) (rnd 3))
    else if r < 0.82 then
      let t := rnd 1
      some (randomInSphereC 0.5 (-0.8 - t * 0.5, 3.5 + t * 3.5, 0.5 - t * 0.2)
        (rnd 2) (rnd 3) (rnd 4))
    else if r < 0.99 then
      let t := rnd 1
      some (randomInSphereC 0.5 (0.8 + t * 0.5, 3.5 + t * 3.5, 0.5 - t * 0.2)
        (rnd 2) (rnd 3) (rnd 4))
    else some (randomInSphereC 0.6 (0, -2.5, -2.0) (rnd 1) (rnd 2) (rnd 3))
  else if ty = "Snake" then
    let t := (i : ℝ) / (activeCount : ℝ)
    let angle := t * Real.pi * 2 * 4
    let yPos := (t - 0.5) * 10
    let bodyThickness := 0.8 * Real.sin (t * Real.pi)
    let spineX := Real.cos angle * (3.5 - t * 1.5)
    let spineZ := Real.sin angle * (3.5 - t * 1.5)
    let volR := rnd 0 * bodyThickness + 0.1
    let volTheta := rnd 1 * Real.pi * 2
    let volPhi := rnd 2 * Real.pi
    let x := spineX + volR * Real.sin volPhi * Real.cos volTheta
    let z := spineZ + volR * Real.sin volPhi * Real.sin volTheta
    let y := yPos + volR * Real.cos volPhi
    if t > 0.98 then some (x + (rnd 3 - 0.5) * 0.5, y, z + (rnd 4 - 0.5) * 0.5)
    else some (x, y, z)
  else if ty = "Bridge" then
    let t := (rnd 0 - 0.5) * 2
    let x := t * 12
    let y := Real.cos (t * 1.4) * 4 - 2 + (rnd 2 - 0.5) * 0.5
    let z := (rnd 1 - 0.5) * 3
    if rnd 3 > 0.95 then
      let side := if rnd 4 > 0.5 then (1.5 : ℝ) else -1.5
      some (side + (rnd 5 - 0.5), 2 + rnd 6 * 2, rnd 7 - 0.5)
    else some (x, y, z)
  else if ty = "Flag" then
    let u := rnd 0
    let v := rnd 1
    let x := (u - 0.5) * 16
    let y := (v - 0.5) * 10
    let z := Real.sin (x * 0.5) * 1.5 + (rnd 2 - 0.5) * 0.1
    some (x, y, z)
  else some (0, 0, 0)

/-! ### Vertex-shader expansion (Particles.tsx lines 52-58) -/

def vecLength (p : ℝ × ℝ × ℝ) : ℝ := Real.sqrt (p.1 ^ 2 + p.2.1 ^ 2 + p.2.2 ^ 2)

def vecNormalize (p : ℝ × ℝ × ℝ) : ℝ × ℝ × ℝ :=
  (p.1 / vecLength p, p.2.1 / vecLength p, p.2.2 / vecLength p)

/-- The expansion displacement of the vertex shader (Particles.tsx lines
52-58): `vec3 dir = normalize(pos); if (length(pos) < 0.001) dir =
vec3(0.0, 1.0, 0.0); pos += dir * uExpansion * 8.0;` — applied before the
uniform `uScale` multiply. -/
def vertexExpansion (p : ℝ × ℝ × ℝ) (e : ℝ) : ℝ × ℝ × ℝ :=
  let dir0 := vecNormalize p
  let dir := if vecLength p < 0.001 then ((0 : ℝ), (1 : ℝ), (0 : ℝ)) else dir0
  (p.1 + dir.1 * e * 8, p.2.1 + dir.2.1 * e * 8, p.2.2 + dir.2.2 * e * 8)

/-- Fixed random streams used as concrete inputs: `rC3 = (0, 1, 1, 1, …)`
and the period-3 stream `rC4 = (0, 1, 1, 0, 1, 1, …)` on which every lantern
rejection-sampling attempt draws `|y| = 5.2 > 4.5`. -/
def rC3 : ℕ → ℝ := fun k => if k = 0 then 0 else 1

def rC4 : ℕ → ℝ := fun k => if k % 3 = 0 then 0 else 1

end

/-- A shape identifier matching no `case` of the switch leaves `x = y = z = 0`
untouched for every iteration: the generator emits all points at the origin. -/
theorem proceduralPoint_unmapped (ty : String) (hty : ty ∉ mappedShapeIds)
    (i activeCount : ℕ) (rnd : ℕ → ℝ) (fuel : ℕ) :
    proceduralPoint ty i activeCount rnd fuel = some (0, 0, 0) := by
  simp only [mappedShapeIds, List.mem_cons, List.not_mem_nil, or_false, not_or] at hty
  obtain ⟨h1, h2, h3, h4, h5, h6, h7, h8, h9, h10, h11, h12, h13, h14, h15, h16, h17,
    h18, h19, h20, h21⟩ := hty
  simp only [proceduralPoint, h1, h2, h3, h4, h5, h6, h7, h8, h9, h10, h11, h12, h13,
    h14, h15, h16, h17, h18, h19, h20, h21, if_false, or_self, false_or]

theorem generateCurrentCount_not_pixel (ty : String) (hI : ty ≠ "Image")
    (hT : ty ≠ "Text") (img : Option ImageData) :
    generateCurrentCount ty img = PROCEDURAL_COUNT := by
  cases img with
  | none => rfl
  | some d =>
    show (if (ty = "Image" ∨ ty = "Text") ∧ 0 < d.width then imageActiveCount d
      else PROCEDURAL_COUNT) = PROCEDURAL_COUNT
    rw [if_neg]
    rintro ⟨h | h, -⟩
    · exact hI h
    · exact hT h

/-! ### Claim C3 -/

/-- C3 counterexample: for the unmapped identifier `"Lotus"` and the draw
sequence `(0, 1, 1)`, the generator emits the origin while the Sphere case
emits `(0, 0, 5)` — an unmapped identifier does *not* fall back to the
filled sphere. -/
theorem C3_counterexample :
    proceduralPoint "Lotus" 0 PROCEDURAL_COUNT rC3 1 = some (0, 0, 0) ∧
    proceduralPoint "Sphere" 0 PROCEDURAL_COUNT rC3 1 = some (0, 0, 5) ∧
    proceduralPoint "Lotus" 0 PROCEDURAL_COUNT rC3 1
      ≠ proceduralPoint "Sphere" 0 PROCEDURAL_COUNT rC3 1 := by
  have hl : proceduralPoint "Lotus" 0 PROCEDURAL_COUNT rC3 1 = some (0, 0, 0) :=
    proceduralPoint_unmapped "Lotus" (by decide) 0 PROCEDURAL_COUNT rC3 1
  have hr0 : rC3 0 = 0 := by simp [rC3]
  have hr1 : rC3 1 = 1 := by simp [rC3]
  have hr2 : rC3 2 = 1 := by simp [rC3]
  have hs : proceduralPoint "Sphere" 0 PROCEDURAL_COUNT rC3 1 = some (0, 0, 5) := by
    show (if ("Sphere" : String) = "Sphere" ∨ ("Sphere" : String) = "Image" ∨
        ("Sphere" : String) = "Text" then
        some (randomInSphere 5 (rC3 0) (rC3 1) (rC3 2)) else _) = some ((0 : ℝ), (0 : ℝ), (5 : ℝ))
    rw [if_pos (Or.inl rfl), hr0, hr1, hr2]
    simp only [randomInSphere]
    norm_num [Real.arccos_one, Real.one_rpow, Real.sin_zero, Real.cos_zero]
  refine ⟨hl, hs, ?_⟩
  rw [hl, hs]
  intro hcontra
  have h5 : (0 : ℝ) = 5 := congrArg (fun q => (Option.getD q (0, 0, 0)).2.2) hcontra
  norm_num at h5

/-- Claim C3 (amended): for every shape identifier not mapped to a generator
case, the generator does not throw: it returns `activeCount = 15000` and
every emitted position is `(0, 0, 0)` (the origin) — not the filled-sphere
output of the Sphere case, which only the mapped Image/Text identifiers
without a buffer fall back to. -/
theorem C3_unmapped_shape_behavior (ty : String) (hty : ty ∉ mappedShapeIds) :
    (∀ (i activeCount : ℕ) (rnd : ℕ → ℝ) (fuel : ℕ),
      proceduralPoint ty i activeCount rnd fuel = some (0, 0, 0)) ∧
    (∀ img, generateCurrentCount ty img = PROCEDURAL_COUNT) := by
  constructor
  · intro i activeCount rnd fuel
    exact proceduralPoint_unmapped ty hty i activeCount rnd fuel
  · intro img
    apply generateCurrentCount_not_pixel ty ?_ ?_ img
    · intro h
      rw [h] at hty
      exact hty (by decide)
    · intro h
      rw [h] at hty
      exact hty (by decide)

/-- C3 witness: the unmapped identifier `"Lotus"`. -/
theorem C3_unmapped_shape_behavior_witness :
    proceduralPoint "Lotus" 0 PROCEDURAL_COUNT rC3 1 = some (0, 0, 0) ∧
    generateCurrentCount "Lotus" none = PROCEDURAL_COUNT := by
  have h := C3_unmapped_shape_behavior "Lotus" (by decide)
  exact ⟨h.1 0 PROCEDURAL_COUNT rC3 1, h.2 none⟩

/-! ### Claim C4 -/

/-- On the stream `rC4` every attempt draws `u = 0, v = 1, w = 1`, giving
`y = 5.2`, so every attempt is rejected: no attempt budget suffices. -/
theorem getLanternPointAux_rC4_none :
    ∀ (fuel start : ℕ), start % 3 = 0 → getLanternPointAux rC4 fuel start = none := by
  intro fuel
  induction fuel with
  | zero => intro start _; rfl
  | succ fuel ih =>
    intro start hs
    have h0 : rC4 start = 0 := by simp [rC4, hs]
    have h1 : rC4 (start + 1) = 1 := by
      simp only [rC4]
      rw [if_neg (by omega)]
    have h2 : rC4 (start + 2) = 1 := by
      simp only [rC4]
      rw [if_neg (by omega)]
    have hpi : Real.pi * ((1 : ℝ) - 0.5) = Real.pi / 2 := by ring
    simp only [getLanternPointAux, h0, h1, h2]
    rw [if_pos]
    · exact ih (start + 3) (by omega)
    · rw [hpi]
      norm_num [Real.sin_pi_div_two, Real.sin_zero, Real.sqrt_one]
      rw [abs_of_pos (by norm_num)]
      norm_num

/-- C4 counterexample: on the concrete stream `rC4`, even 1000 attempts of
the lantern rejection sampling all reject — there is no retry cap with a
fallback after a small number of attempts. -/
theorem C4_counterexample : getLanternPoint 1000 rC4 = none := by
  unfold getLanternPoint
  rw [getLanternPointAux_rC4_none 1000 0 rfl]
  rfl

theorem getLanternPointAux_isSome :
    ∀ (fuel : ℕ) (rnd : ℕ → ℝ) (start : ℕ),
      (∃ k, k < fuel ∧ |lanternSampleY (rnd (start + 3 * k)) (rnd (start + 3 * k + 1))
        (rnd (start + 3 * k + 2))| ≤ 4.5) →
      (getLanternPointAux rnd fuel start).isSome = true := by
  intro fuel
  induction fuel with
  | zero =>
    intro rnd start h
    obtain ⟨k, hk, -⟩ := h
    omega
  | succ fuel ih =>
    intro rnd start h
    simp only [getLanternPointAux]
    split
    · next hrej =>
      obtain ⟨k, hk, hacc⟩ := h
      cases k with
      | zero =>
        exfalso
        have he : lanternSampleY (rnd start) (rnd (start + 1)) (rnd (start + 2))
            = (4 * (1.0 + 0.1 * Real.sin (2 * Real.pi * rnd start * 8))
              * Real.sqrt (rnd (start + 2)))
              * Real.sin (Real.pi * (rnd (start + 1) - 0.5)) * 1.3 := rfl
        rw [show start + 3 * 0 = start from by omega, show start + 3 * 0 + 1 = start + 1
          from by omega, show start + 3 * 0 + 2 = start + 2 from by omega] at hacc
        rw [he] at hacc
        exact absurd hrej (not_lt.mpr hacc)
      | succ k =>
        apply ih rnd (start + 3)
        refine ⟨k, by omega, ?_⟩
        rw [show start + 3 + 3 * k = start + 3 * (k + 1) from by omega]
        exact hacc
    · simp

/-- Claim C4 (amended): `getLanternPoint` retries by recursion with no cap and
no fallback sample.  It terminates exactly when some attempt draws an accepted
sample (`|y| ≤ 4.5`): on the concrete stream `rC4` no attempt budget ever
produces a point, while any stream with an accepting attempt within the budget
yields one. -/
theorem C4_lantern_rejection_unbounded :
    (∀ fuel, getLanternPoint fuel rC4 = none) ∧
    (∀ (rnd : ℕ → ℝ) (fuel : ℕ), (∃ k, k < fuel ∧ lanternAccepts rnd k) →
      ∃ p, getLanternPoint fuel rnd = some p) := by
  constructor
  · intro fuel
    unfold getLanternPoint
    rw [getLanternPointAux_rC4_none fuel 0 rfl]
    rfl
  · intro rnd fuel h
    have hsome : (getLanternPointAux rnd fuel 0).isSome = true := by
      apply getLanternPointAux_isSome fuel rnd 0
      obtain ⟨k, hk, hacc⟩ := h
      refine ⟨k, hk, ?_⟩
      unfold lanternAccepts at hacc
      rw [show (0 : ℕ) + 3 * k = 3 * k from by omega]
      exact hacc
    unfold getLanternPoint
    obtain ⟨q, hq⟩ := Option.isSome_iff_exists.mp hsome
    rw [hq]
    exact ⟨q.1, rfl⟩

/-- C4 witness: the all-zero stream accepts on its very first attempt
(`y = 0`), so one unit of budget suffices. -/
theorem C4_lantern_rejection_unbounded_witness :
    ∃ p, getLanternPoint 1 (fun _ => 0) = some p := by
  apply C4_lantern_rejection_unbounded.2 (fun _ => 0) 1
  refine ⟨0, by omega, ?_⟩
  unfold lanternAccepts lanternSampleY
  norm_num [Real.sqrt_zero]

/-! ### Claim C6 -/

/-- Claim C6: the vertex-shader displacement equals `p + d * (8e)` with
`d = normalize(p)` when `|p| ≥ 0.001` and `d = (0,1,0)` otherwise; a point
exactly at the origin yields the well-defined value `(0, 8e, 0)`, and at
`e = 0` every base position is reproduced exactly. -/
theorem C6_vertex_expansion :
    (∀ (p : ℝ × ℝ × ℝ) (e : ℝ), vertexExpansion p e =
      (p.1 + (if 0.001 ≤ vecLength p then (vecNormalize p).1 else 0) * (8 * e),
       p.2.1 + (if 0.001 ≤ vecLength p then (vecNormalize p).2.1 else 1) * (8 * e),
       p.2.2 + (if 0.001 ≤ vecLength p then (vecNormalize p).2.2 else 0) * (8 * e))) ∧
    (∀ p : ℝ × ℝ × ℝ, vertexExpansion p 0 = p) ∧
    (∀ e : ℝ, vertexExpansion (0, 0, 0) e = (0, 8 * e, 0)) := by
  refine ⟨?_, ?_, ?_⟩
  · intro p e
    simp only [vertexExpansion]
    rcases lt_or_le (vecLength p) 0.001 with hlt | hle
    · rw [if_pos hlt, if_neg (not_le.mpr hlt), if_neg (not_le.mpr hlt),
        if_neg (not_le.mpr hlt)]
      simp only [Prod.mk.injEq]
      refine ⟨by ring, by ring, by ring⟩
    · rw [if_neg (not_lt.mpr hle), if_pos hle, if_pos hle, if_pos hle]
      simp only [Prod.mk.injEq]
      refine ⟨by ring, by ring, by ring⟩
  · intro p
    obtain ⟨a, b, c⟩ := p
    simp only [vertexExpansion]
    split <;> simp
  · intro e
    have h0 : vecLength (0, 0, 0) = 0 := by
      simp [vecLength]
    simp only [vertexExpansion, h0]
    rw [if_pos (by norm_num)]
    simp only [Prod.mk.injEq]
    refine ⟨by ring, by ring, by ring⟩

/-! ### Claim C7 -/

/-- C7 counterexample: a buffer with positive width but zero height is *not*
treated like a missing buffer — the pixel path is taken (only `width > 0` is
checked) and the generator returns `activeCount = 0`, not the procedural
fallback's 15000. -/
theorem C7_counterexample :
    takesPixelPath "Image" (some ⟨5, 0, []⟩) ∧
    generateCurrentCount "Image" (some ⟨5, 0, []⟩) = 0 ∧
    PROCEDURAL_COUNT = 15000 := by
  refine ⟨⟨Or.inl rfl, ⟨5, 0, []⟩, rfl, by decide⟩, by decide, rfl⟩

/-- Claim C7 (amended): a missing buffer or a zero-width buffer takes the
procedural fallback path (`activeCount = 15000`, the Image/Text case of the
switch being the radius-5 sphere); but a zero-height buffer with positive
width takes the pixel path and yields `activeCount = 0` (a blank cloud), not
the procedural fallback. -/
theorem C7_zero_dimension_buffer :
    (∀ ty, generateCurrentCount ty none = PROCEDURAL_COUNT) ∧
    (∀ ty (d : ImageData), d.width = 0 →
      generateCurrentCount ty (some d) = PROCEDURAL_COUNT ∧
      ¬takesPixelPath ty (some d)) ∧
    (∀ d : ImageData, 0 < d.width → takesPixelPath "Image" (some d)) ∧
    (∀ d : ImageData, 0 < d.width → d.height = 0 →
      generateCurrentCount "Image" (some d) = 0) ∧
    (∀ (i n : ℕ) (rnd : ℕ → ℝ) (fuel : ℕ), proceduralPoint "Image" i n rnd fuel
      = some (randomInSphere 5 (rnd 0) (rnd 1) (rnd 2))) := by
  refine ⟨fun ty => rfl, ?_, ?_, ?_, ?_⟩
  · intro ty d hw
    constructor
    · show (if (ty = "Image" ∨ ty = "Text") ∧ 0 < d.width then imageActiveCount d
        else PROCEDURAL_COUNT) = PROCEDURAL_COUNT
      rw [if_neg]
      rintro ⟨-, hpos⟩
      omega
    · rintro ⟨-, e, he, hpos⟩
      cases he
      omega
  · intro d hw
    exact ⟨Or.inl rfl, d, rfl, hw⟩
  · intro d hw hh
    obtain ⟨w, ht, data⟩ := d
    simp only at hh
    subst hh
    show (if (("Image" : String) = "Image" ∨ ("Image" : String) = "Text") ∧ 0 < w
      then imageActiveCount ⟨w, 0, data⟩ else PROCEDURAL_COUNT) = 0
    rw [if_pos ⟨Or.inl rfl, by simpa using hw⟩]
    show (if MAX_PARTICLE_COUNT < (validPixels ⟨w, 0, data⟩).length then
      MAX_PARTICLE_COUNT else (validPixels ⟨w, 0, data⟩).length) = 0
    have hvp : validPixels ⟨w, 0, data⟩ = [] := rfl
    rw [hvp]
    rfl
  · intro i n rnd fuel
    show (if ("Image" : String) = "Sphere" ∨ ("Image" : String) = "Image" ∨
        ("Image" : String) = "Text" then
        some (randomInSphere 5 (rnd 0) (rnd 1) (rnd 2)) else _) = _
    rw [if_pos (Or.inr (Or.inl rfl))]

/-- C7 witness: a missing buffer, a zero-width buffer and a zero-height
buffer. -/
theorem C7_zero_dimension_buffer_witness :
    generateCurrentCount "Heart" (some ⟨0, 3, []⟩) = PROCEDURAL_COUNT ∧
    generateCurrentCount "Image" (some ⟨5, 0, []⟩) = 0 := by
  have h := C7_zero_dimension_buffer
  exact ⟨(h.2.1 "Heart" ⟨0, 3, []⟩ rfl).1, h.2.2.2.1 ⟨5, 0, []⟩ (by decide) rfl⟩

end ZenParticles
